import Mathlib

/-!
# Verification of the TermCore terminal-emulation engine

A shallow embedding of `TermCoreModule` (the VT100/ANSI terminal emulation
engine of the repository) together with proofs and refutations of the
specification claims about it.

Modelling conventions, matching the JavaScript source:

* JS numbers holding cursor coordinates are modelled as `Int` (the source lets
  `cursorY` go negative via `reverseIndex` and past `rows` via `lineFeed`);
  row/column counts and the scroll-region indices, which the source keeps
  non-negative (`Math.max(0, …)` / constructor values), are modelled as `Nat`,
  with `Nat` truncated subtraction playing the role of the `Math.max(0, …)`
  clamps where noted.
* The screen is a `List (List Cell)`.  A JS array hole (created when the
  source assigns `this.screen[row] = …` at an index beyond the current array
  length) is encoded as an empty row `[]`: a real row always has at least one
  cell (the engine keeps `cols ≥ 1`), and every read in the source guards with
  `if (this.screen[row] && this.screen[row][col])`, which skips holes exactly
  as reads of `[]` produce nothing here.
* A JS write `this.screen[y][x] = v` with `this.screen[y]` undefined throws a
  `TypeError`; fallible mutations therefore return `Option` and a crash is
  `none`.  Assignments to negative indices (`a[-1] = v`) create invisible
  non-index properties in JS; they are modelled as no-ops.
* `write` encodes its string argument to bytes and `processOutput` decodes
  them back; the round trip is the identity on the character level, so data is
  modelled directly as `List Char`.
* `performance.now`, timestamps, telemetry and the `updateDisplay` callback
  have no effect on the terminal state and are omitted.  The constructor
  fields `charset`, `originMode`, `insertMode`, `applicationKeypad` are never
  read or written after construction and are omitted.
-/

namespace TermCore

/-- One attribute set; the "current pen".  Mirrors `this.attributes`. -/
structure Attributes where
  bold : Bool
  dim : Bool
  italic : Bool
  underline : Bool
  blink : Bool
  reverse : Bool
  strikethrough : Bool
  foreground : Nat
  background : Nat
deriving DecidableEq

/-- Default attributes from the constructor: all flags off, white on black. -/
def defaultAttributes : Attributes :=
  { bold := false, dim := false, italic := false, underline := false,
    blink := false, reverse := false, strikethrough := false,
    foreground := 7, background := 0 }

/-- One screen cell: a character plus the attribute set captured at write time. -/
structure Cell where
  char : Char
  attributes : Attributes
deriving DecidableEq

/-- The snapshot stored by `saveCursor`. -/
structure SavedCursor where
  x : Int
  y : Int
  attributes : Attributes
deriving DecidableEq

/-- One session-log entry (`addToReplayLog`); the timestamp is irrelevant to
the state evolution and omitted. -/
structure LogEntry where
  entryType : String
  data : List Char
deriving DecidableEq

/-- The whole mutable state of a `TermCoreModule` instance. -/
structure TermState where
  cursorX : Int
  cursorY : Int
  rows : Nat
  cols : Nat
  scrollTop : Nat
  scrollBottom : Nat
  wraparound : Bool
  applicationCursor : Bool
  attributes : Attributes
  screen : List (List Cell)
  scrollback : List (List Cell)
  savedCursor : Option SavedCursor
  sessionLog : List LogEntry
  isReplaying : Bool
  replayIndex : Nat
  replayData : List LogEntry
deriving DecidableEq

/-- `config.maxScrollback`. -/
def maxScrollback : Nat := 10000

/-- `config.tabSize`. -/
def tabSize : Nat := 8

/-- `config.maxReplaySize`. -/
def maxReplaySize : Nat := 1000000

/-- `config.enableReplay`. -/
def enableReplayCfg : Bool := true

/-- `config.enableClipboard`. -/
def enableClipboardCfg : Bool := true

/-- ESC, 0x1B. -/
def escCh : Char := Char.ofNat 27

/-- BEL, 0x07. -/
def belCh : Char := Char.ofNat 7

/-- Backspace, 0x08. -/
def bsCh : Char := Char.ofNat 8

/-- Rebuild a list by applying `f` to each element with its index (counting
from `k`): the sequential `for` loops of the source that reassign
`screen[row]` from a snapshot of the original array. -/
def mapIdxFrom (f : Nat → α → α) : Nat → List α → List α
  | _, [] => []
  | k, a :: as => f k a :: mapIdxFrom f (k + 1) as

/-- `mapIdxFrom` from index 0. -/
def jsMapIdx (f : Nat → α → α) (l : List α) : List α :=
  mapIdxFrom f 0 l

/-- A fresh blank row of `cols` cells, each capturing the attribute set `a`. -/
def blankRow (cols : Nat) (a : Attributes) : List Cell :=
  List.replicate cols { char := ' ', attributes := a }

/-- JS assignment `row[x] = c` as seen through the array part: a negative
index sets an invisible property (no-op here), an index below the length
overwrites, an index at or beyond the length extends the array (intermediate
holes would be skipped by every reader; they never arise in reachable states
because `x ≤ cols ≤ row.length`, and are padded with blank cells). -/
def rowSet (row : List Cell) (x : Int) (c : Cell) : List Cell :=
  if x < 0 then row
  else
    let i := x.toNat
    if i < row.length then row.set i c
    else row ++ List.replicate (i - row.length) { char := ' ', attributes := defaultAttributes } ++ [c]

/-- JS `this.screen[y][x] = c`: crashes (`none`) when `screen[y]` is undefined,
i.e. when `y` is out of range or names a hole (encoded as `[]`). -/
def setCell (screen : List (List Cell)) (y : Int) (x : Int) (c : Cell) :
    Option (List (List Cell)) :=
  if 0 ≤ y ∧ y.toNat < screen.length then
    let row := screen.getD y.toNat []
    if row.isEmpty then none
    else some (screen.set y.toNat (rowSet row x c))
  else none

/-- JS `this.screen[row] = [blank row]` (`clearRow`'s screen effect): a whole-row
assignment never throws; beyond the end it extends the array, creating holes
(encoded as `[]` rows) for the skipped indices. -/
def clearRowScreen (screen : List (List Cell)) (r : Int) (blank : List Cell) :
    List (List Cell) :=
  if r < 0 then screen
  else
    let i := r.toNat
    if i < screen.length then screen.set i blank
    else screen ++ List.replicate (i - screen.length) ([] : List Cell) ++ [blank]

/-- `clearRow(row)`: overwrite row `row` with blank cells carrying the current
attribute set. -/
def clearRow (s : TermState) (r : Int) : TermState :=
  { s with screen := clearRowScreen s.screen r (blankRow s.cols s.attributes) }

/-- `scrollUp()`: retire the `scrollTop` row into scrollback (with the batch
half-capacity trim), shift rows `[scrollTop+1, scrollBottom]` up one, and
rebuild the `scrollBottom` row blank with the current attributes. -/
def scrollUp (s : TermState) : TermState :=
  let topLine := s.screen.getD s.scrollTop []
  let pushed := s.scrollback ++ [topLine]
  let trimmed :=
    if pushed.length > maxScrollback then pushed.drop (pushed.length - maxScrollback / 2)
    else pushed
  let shifted := jsMapIdx (fun i r =>
    if s.scrollTop ≤ i ∧ i < s.scrollBottom then s.screen.getD (i + 1) []
    else if i = s.scrollBottom then blankRow s.cols s.attributes
    else r) s.screen
  { s with scrollback := trimmed, screen := shifted }

/-- `lineFeed()`. -/
def lineFeed (s : TermState) : TermState :=
  if s.cursorY = (s.scrollBottom : Int) then scrollUp s
  else { s with cursorY := s.cursorY + 1 }

/-- `insertCharacter(char)`: wrap or clamp an off-right cursor, write the cell,
advance the column (deliberately past the last column without clamping). -/
def insertCharacter (s : TermState) (c : Char) : Option TermState :=
  let s1 :=
    if (s.cols : Int) ≤ s.cursorX then
      if s.wraparound then lineFeed { s with cursorX := 0 }
      else { s with cursorX := (s.cols : Int) - 1 }
    else s
  match setCell s1.screen s1.cursorY s1.cursorX { char := c, attributes := s1.attributes } with
  | some sc => some { s1 with screen := sc, cursorX := s1.cursorX + 1 }
  | none => none

/-- `tab()`: advance to the next multiple of `tabSize`, clamped to the last
column.  `Int.fdiv` is JS `Math.floor` division. -/
def tab (s : TermState) : TermState :=
  let nextTabStop := ((s.cursorX + (tabSize : Int)).fdiv (tabSize : Int)) * (tabSize : Int)
  { s with cursorX := min nextTabStop ((s.cols : Int) - 1) }

/-- `backspace()`. -/
def backspace (s : TermState) : TermState :=
  if 0 < s.cursorX then { s with cursorX := s.cursorX - 1 } else s

/-- `cursorUp(count)`: clamped below by `scrollTop`. -/
def cursorUp (s : TermState) (count : Nat) : TermState :=
  { s with cursorY := max (s.scrollTop : Int) (s.cursorY - count) }

/-- `cursorDown(count)`: clamped above by `scrollBottom`. -/
def cursorDown (s : TermState) (count : Nat) : TermState :=
  { s with cursorY := min (s.scrollBottom : Int) (s.cursorY + count) }

/-- `cursorRight(count)`. -/
def cursorRight (s : TermState) (count : Nat) : TermState :=
  { s with cursorX := min ((s.cols : Int) - 1) (s.cursorX + count) }

/-- `cursorLeft(count)`. -/
def cursorLeft (s : TermState) (count : Nat) : TermState :=
  { s with cursorX := max 0 (s.cursorX - count) }

/-- `setCursorPosition(row, col)`: 1-based arguments clamped into the full
screen. -/
def setCursorPosition (s : TermState) (row col : Nat) : TermState :=
  { s with
    cursorY := max 0 (min ((s.rows : Int) - 1) ((row : Int) - 1)),
    cursorX := max 0 (min ((s.cols : Int) - 1) ((col : Int) - 1)) }

/-- Write the cell `c` at row `y`, columns `xs`, left to right (the erase
loops); the first out-of-range row access crashes, an empty column list never
touches the screen. -/
def writeCells (screen : List (List Cell)) (y : Int) (xs : List Nat) (c : Cell) :
    Option (List (List Cell)) :=
  xs.foldlM (fun sc (x : Nat) => setCell sc y (x : Int) c) screen

/-- `eraseLine(mode)`: 0 = cursor→end, 1 = start→cursor (inclusive!),
2 = whole row; other modes fall through the switch.  The loop bounds follow
the source: mode 0 iterates `col = cursorX … cols-1`, mode 1 iterates
`col = 0 … cursorX`. -/
def eraseLine (s : TermState) (mode : Nat) : Option TermState :=
  let blank : Cell := { char := ' ', attributes := s.attributes }
  if mode = 0 then
    let xs := (List.range s.cols).filter (fun (col : Nat) => decide (s.cursorX ≤ (col : Int)))
    (writeCells s.screen s.cursorY xs blank).map (fun sc => { s with screen := sc })
  else if mode = 1 then
    let xs := if s.cursorX < 0 then [] else List.range (s.cursorX.toNat + 1)
    (writeCells s.screen s.cursorY xs blank).map (fun sc => { s with screen := sc })
  else if mode = 2 then some (clearRow s s.cursorY)
  else some s

/-- `eraseDisplay(mode)`: 0 = cursor→end, 1 = start→cursor, 2 = all (then home
the cursor); other modes fall through the switch. -/
def eraseDisplay (s : TermState) (mode : Nat) : Option TermState :=
  if mode = 0 then
    (eraseLine s 0).map (fun s1 =>
      (List.range s1.rows).foldl
        (fun acc (r : Nat) => if s.cursorY + 1 ≤ (r : Int) then clearRow acc (r : Int) else acc) s1)
  else if mode = 1 then
    let count := if s.cursorY ≤ 0 then 0 else s.cursorY.toNat
    let s1 := (List.range count).foldl (fun acc (r : Nat) => clearRow acc (r : Int)) s
    eraseLine s1 1
  else if mode = 2 then
    let s1 := (List.range s.rows).foldl (fun acc (r : Nat) => clearRow acc (r : Int)) s
    some (setCursorPosition s1 1 1)
  else some s

/-- One SGR code applied to the pen (`setGraphicsRendition`'s switch). -/
def applyRendition (a : Attributes) (p : Nat) : Attributes :=
  match p with
  | 0 => defaultAttributes
  | 1 => { a with bold := true }
  | 2 => { a with dim := true }
  | 3 => { a with italic := true }
  | 4 => { a with underline := true }
  | 5 => { a with blink := true }
  | 7 => { a with reverse := true }
  | 9 => { a with strikethrough := true }
  | 22 => { a with bold := false, dim := false }
  | 23 => { a with italic := false }
  | 24 => { a with underline := false }
  | 25 => { a with blink := false }
  | 27 => { a with reverse := false }
  | 29 => { a with strikethrough := false }
  | _ =>
      if 30 ≤ p ∧ p ≤ 37 then { a with foreground := p - 30 }
      else if 40 ≤ p ∧ p ≤ 47 then { a with background := p - 40 }
      else a

/-- `setGraphicsRendition(params)`: empty parameter list means `[0]`. -/
def setGraphicsRendition (s : TermState) (params : List Nat) : TermState :=
  let ps := if params.isEmpty then [0] else params
  { s with attributes := ps.foldl applyRendition s.attributes }

/-- `setScrollRegion(top, bottom)`: `scrollTop := max(0, top-1)` (the `Nat`
truncated subtraction is exactly the clamp), `scrollBottom := min(rows-1,
bottom-1)`, then home the cursor.  The reachable `rows` and `bottom` are ≥ 1,
so the `Nat` subtractions agree with JS. -/
def setScrollRegion (s : TermState) (top bottom : Nat) : TermState :=
  setCursorPosition
    { s with scrollTop := top - 1, scrollBottom := min (s.rows - 1) (bottom - 1) } 1 1

/-- `setMode(params, enable)`: only code 1 (application cursor keys) has an
effect; the other cases are empty. -/
def setMode (s : TermState) (params : List Nat) (enable : Bool) : TermState :=
  params.foldl (fun st p => if p = 1 then { st with applicationCursor := enable } else st) s

/-- `saveCursor()`. -/
def saveCursor (s : TermState) : TermState :=
  { s with savedCursor := some { x := s.cursorX, y := s.cursorY, attributes := s.attributes } }

/-- `restoreCursor()`: no-op when nothing was saved. -/
def restoreCursor (s : TermState) : TermState :=
  match s.savedCursor with
  | none => s
  | some c => { s with cursorX := c.x, cursorY := c.y, attributes := c.attributes }

/-- `scrollDown()`: shift rows `(scrollTop, scrollBottom]` down one, then clear
the `scrollTop` row. -/
def scrollDown (s : TermState) : TermState :=
  let shifted := jsMapIdx (fun i r =>
    if s.scrollTop < i ∧ i ≤ s.scrollBottom then s.screen.getD (i - 1) []
    else r) s.screen
  clearRow { s with screen := shifted } (s.scrollTop : Int)

/-- `reverseIndex()` (ESC M). -/
def reverseIndex (s : TermState) : TermState :=
  if s.cursorY = (s.scrollTop : Int) then scrollDown s
  else { s with cursorY := s.cursorY - 1 }

/-- `index()` (ESC D). -/
def index (s : TermState) : TermState :=
  if s.cursorY = (s.scrollBottom : Int) then scrollUp s
  else { s with cursorY := s.cursorY + 1 }

/-- `nextLine()` (ESC E). -/
def nextLine (s : TermState) : TermState :=
  index { s with cursorX := 0 }

/-- Column adjustment of one existing row in `resize`: pad with blank cells
(current attributes) or truncate. -/
def resizeRow (r : List Cell) (oldCols cols : Nat) (a : Attributes) : List Cell :=
  if oldCols < cols then
    (List.range' oldCols (cols - oldCols)).foldl
      (fun rr (col : Nat) => rowSet rr (col : Int) { char := ' ', attributes := a }) r
  else if cols < oldCols then r.take cols
  else r

/-- `resize(rows, cols)`: grow by appending blank rows / shrink by retiring the
excess rows (holes skipped, no scrollback trim!) and truncating, adjust the
width of the surviving original rows, reset `scrollBottom` to the new bottom,
and clamp the cursor from above (only). -/
def resize (s : TermState) (rows cols : Nat) : TermState :=
  let oldRows := s.rows
  let oldCols := s.cols
  let screen1 :=
    if oldRows < rows then
      s.screen.take oldRows ++ List.replicate (rows - oldRows) (blankRow cols s.attributes)
        ++ s.screen.drop rows
    else if rows < oldRows then s.screen.take rows
    else s.screen
  let retired :=
    if rows < oldRows then
      ((s.screen.drop rows).take (oldRows - rows)).filter (fun r => ¬ r.isEmpty)
    else []
  let screen2 := jsMapIdx (fun i r =>
    if i < min rows oldRows then resizeRow r oldCols cols s.attributes else r) screen1
  { s with
    rows := rows, cols := cols, scrollBottom := rows - 1,
    screen := screen2,
    scrollback := s.scrollback ++ retired,
    cursorX := min s.cursorX ((cols : Int) - 1),
    cursorY := min s.cursorY ((rows : Int) - 1) }

end TermCore

namespace TermCore

/-- A CSI parameter character, `/[0-9;]/`. -/
def csiParamChar (c : Char) : Bool :=
  c.isDigit || c = ';'

/-- End of the CSI parameter span: the first index at or after `i` whose
character is not a digit or `;` (or the end of the text); the collection loop
`while (i < text.length && text[i].match(/[0-9;]/))`. -/
def csiSpanEnd (text : List Char) (i : Nat) : Nat :=
  i + ((text.drop i).takeWhile csiParamChar).length

/-- `parseInt(p) || 0` on one split parameter: the parameter span contains only
digits and `;`, so each piece is a digit string; the empty piece gives 0
(`parseInt("")` is `NaN`). -/
def parsePart (p : List Char) : Nat :=
  p.foldl (fun n c => n * 10 + (c.toNat - 48)) 0

/-- The parameter list of a CSI sequence: split the collected span on `;`,
parse each piece; an empty span yields no parameters at all. -/
def parseParams (pstr : List Char) : List Nat :=
  if pstr.isEmpty then [] else (List.splitOn ';' pstr).map parsePart

/-- `params[i] || d`: a missing parameter is `undefined` and a parsed 0 is
falsy, so both fall back to the default. -/
def paramOr (params : List Nat) (i : Nat) (d : Nat) : Nat :=
  let p := params.getD i 0
  if p = 0 then d else p

/-- The switch of `processCSISequence`: dispatch one final byte with its
parameters.  Unlisted command letters fall through (no `default` branch). -/
def runCSICommand (s : TermState) (command : Char) (params : List Nat) :
    Option TermState :=
  if command = 'A' then some (cursorUp s (paramOr params 0 1))
  else if command = 'B' then some (cursorDown s (paramOr params 0 1))
  else if command = 'C' then some (cursorRight s (paramOr params 0 1))
  else if command = 'D' then some (cursorLeft s (paramOr params 0 1))
  else if command = 'H' then some (setCursorPosition s (paramOr params 0 1) (paramOr params 1 1))
  else if command = 'J' then eraseDisplay s (params.getD 0 0)
  else if command = 'K' then eraseLine s (params.getD 0 0)
  else if command = 'm' then some (setGraphicsRendition s params)
  else if command = 'r' then some (setScrollRegion s (paramOr params 0 1) (paramOr params 1 s.rows))
  else if command = 's' then some (saveCursor s)
  else if command = 'u' then some (restoreCursor s)
  else if command = 'l' then some (setMode s params false)
  else if command = 'h' then some (setMode s params true)
  else some s

/-- `processCSISequence(text, startIndex)`: collect the parameter span; if the
text ends before a final byte, consume to the end without dispatching,
otherwise dispatch the final byte and consume through it. -/
def processCSISequence (s : TermState) (text : List Char) (startIndex : Nat) :
    Option TermState × Nat :=
  let e := csiSpanEnd text startIndex
  match text.get? e with
  | none => (some s, text.length)
  | some command =>
      let pstr := (text.drop startIndex).take (e - startIndex)
      (runCSICommand s command (parseParams pstr), e + 1)

/-- Number of characters the OSC scan skips before its terminator: the loop
`while (i < len && text[i] !== BEL && !(text[i] === ESC && text[i+1] === '\\'))`
on the remaining text. -/
def oscScanLen : List Char → Nat
  | [] => 0
  | c :: rest =>
      if c = belCh then 0
      else if c = escCh ∧ rest.head? = some '\\' then 0
      else oscScanLen rest + 1

/-- The scan of `processOSCSequence`: the first index at or after `i` holding
BEL or an ESC immediately followed by `\` (or the end of the text). -/
def oscScanEnd (text : List Char) (i : Nat) : Nat :=
  i + oscScanLen (text.drop i)

/-- `processOSCSequence(text, startIndex)`: skip to the terminator and consume
it (one byte for BEL, two for ESC `\`); an unterminated sequence is consumed
to the end.  The payload has no state effect. -/
def processOSCSequence (text : List Char) (startIndex : Nat) : Nat :=
  let e := oscScanEnd text startIndex
  match text.get? e with
  | none => e
  | some c => if c = belCh then e + 1 else e + 2

/-- The switch on the second byte of a simple (non-CSI, non-OSC) escape
sequence; unlisted characters and the unimplemented tab-set (`H`) fall
through. -/
def runSimpleEscape (s : TermState) (c : Char) : TermState :=
  if c = 'M' then reverseIndex s
  else if c = 'D' then index s
  else if c = 'E' then nextLine s
  else if c = '7' then saveCursor s
  else if c = '8' then restoreCursor s
  else s

/-- `processEscapeSequence(text, startIndex)` with `startIndex` at the ESC:
returns the state effect (`none` = the handler threw) and the resume index. -/
def processEscapeSequence (s : TermState) (text : List Char) (startIndex : Nat) :
    Option TermState × Nat :=
  let i := startIndex + 1
  match text.get? i with
  | none => (some s, startIndex + 1)
  | some nextChar =>
      if nextChar = '[' then processCSISequence s text (i + 1)
      else if nextChar = ']' then (some s, processOSCSequence text (i + 1))
      else if nextChar = '(' then (some s, i + 2)
      else (some (runSimpleEscape s nextChar), i + 1)

theorem csiSpanEnd_ge (text : List Char) (i : Nat) : i ≤ csiSpanEnd text i := by
  rw [csiSpanEnd]
  omega

theorem oscScanEnd_ge (text : List Char) (i : Nat) : i ≤ oscScanEnd text i := by
  rw [oscScanEnd]
  omega

theorem processCSISequence_progress (s : TermState) (text : List Char) (j : Nat) :
    (processCSISequence s text j).2 = text.length ∨ j + 1 ≤ (processCSISequence s text j).2 := by
  rw [processCSISequence]
  cases h : text.get? (csiSpanEnd text j) with
  | none => exact Or.inl rfl
  | some c =>
      right
      have := csiSpanEnd_ge text j
      simp only []
      omega

theorem processOSCSequence_ge (text : List Char) (j : Nat) :
    j ≤ processOSCSequence text j := by
  have := oscScanEnd_ge text j
  rw [processOSCSequence]
  cases hq : text.get? (oscScanEnd text j) with
  | none => simpa using this
  | some c =>
      show j ≤ if c = belCh then oscScanEnd text j + 1 else oscScanEnd text j + 2
      by_cases hb : c = belCh
      · rw [if_pos hb]
        omega
      · rw [if_neg hb]
        omega

theorem processEscapeSequence_progress (s : TermState) (text : List Char) (i : Nat) :
    i < (processEscapeSequence s text i).2 := by
  rw [processEscapeSequence]
  cases h : text.get? (i + 1) with
  | none => simp
  | some c =>
      have hlen : i + 1 < text.length := (List.get?_eq_some.mp h).1
      simp only []
      split
      · rcases processCSISequence_progress s text (i + 1 + 1) with h2 | h2 <;> omega
      · split
        · have := processOSCSequence_ge text (i + 1 + 1)
          simp only []
          omega
        · split
          · simp only []
            omega
          · simp only []
            omega

/-- The dispatch loop of `processOutput`: consume one unit at index `i` and
continue.  The loop is driven by fuel counting consumed units; because every
branch strictly advances the index (`processEscapeSequence_progress`), the
fuel `text.length + 1` supplied by `processOutput` can never run out — the
fuel-exhaustion branch is unreachable (`processOutputGo_stable`), which is
exactly the source's termination argument. -/
def processOutputGo (s : TermState) (text : List Char) (i : Nat) : Nat → Option TermState
  | 0 => some s
  | fuel + 1 =>
      match text.get? i with
      | none => some s
      | some c =>
          if c = escCh then
            match processEscapeSequence s text i with
            | (none, _) => none
            | (some s', j) => processOutputGo s' text j fuel
          else if c = '\r' then processOutputGo { s with cursorX := 0 } text (i + 1) fuel
          else if c = '\n' then processOutputGo (lineFeed s) text (i + 1) fuel
          else if c = '\t' then processOutputGo (tab s) text (i + 1) fuel
          else if c = bsCh then processOutputGo (backspace s) text (i + 1) fuel
          else if 32 ≤ c.toNat then
            match insertCharacter s c with
            | none => none
            | some s' => processOutputGo s' text (i + 1) fuel
          else processOutputGo s text (i + 1) fuel

/-- `processOutput(data)`: decode and run the dispatch loop from index 0
(`updateDisplay` afterwards has no state effect). -/
def processOutput (s : TermState) (data : List Char) : Option TermState :=
  processOutputGo s data 0 (data.length + 1)

/-- `addToReplayLog(type, data)` with the amortized half trim. -/
def addToReplayLog (s : TermState) (etype : String) (data : List Char) : TermState :=
  let log := s.sessionLog ++ [{ entryType := etype, data := data }]
  let log2 :=
    if log.length > maxReplaySize then log.drop (log.length - maxReplaySize / 2) else log
  { s with sessionLog := log2 }

/-- `write(data)`: record for replay (unless replaying), then process; the
returned byte count is irrelevant to the state. -/
def write (s : TermState) (data : List Char) : Option TermState :=
  let s1 := if enableReplayCfg && !s.isReplaying then addToReplayLog s ("output") data else s
  processOutput s1 data

/-- `initializeScreen()`: rebuild the first `rows` rows blank with the current
attributes; rows beyond `rows` (never created in normal operation) survive. -/
def initializeScreen (s : TermState) : TermState :=
  { s with screen := List.replicate s.rows (blankRow s.cols s.attributes) ++ s.screen.drop s.rows }

/-- `startReplay(replayData)`: refuse when the feature is off; otherwise blank
the screen, home the cursor, and enter replay mode.  Attributes, scroll
region and saved cursor are left untouched. -/
def startReplay (s : TermState) (entries : List LogEntry) : Option TermState :=
  if enableReplayCfg then
    some (initializeScreen
      { s with isReplaying := true, replayIndex := 0, replayData := entries,
               cursorX := 0, cursorY := 0 })
  else none

/-- `stepReplay()`: feed one recorded entry through `write`, advance the
index; the Bool is the source's return value (more entries remain). -/
def stepReplay (s : TermState) : Option (Bool × TermState) :=
  if s.isReplaying ∧ s.replayIndex < s.replayData.length then
    match s.replayData.get? s.replayIndex with
    | none => none
    | some entry =>
        let step : Option TermState :=
          if entry.entryType = "output" then write s entry.data else some s
        match step with
        | none => none
        | some s1 =>
            some (s1.replayIndex + 1 < s1.replayData.length,
                  { s1 with replayIndex := s1.replayIndex + 1 })
  else some (false, s)


/-- Drive `stepReplay` repeatedly until it returns `false` (the external
replay loop the spec describes); fuel counts steps, and `replayToEnd`
supplies enough for every entry plus the final `false` step. -/
def replayRunGo : TermState → Nat → Option TermState
  | s, 0 => some s
  | s, fuel + 1 =>
      match stepReplay s with
      | none => none
      | some (false, s1) => some s1
      | some (true, s1) => replayRunGo s1 fuel

/-- Run a started replay to completion. -/
def replayToEnd (s : TermState) : Option TermState :=
  replayRunGo s (s.replayData.length + 1)

/-- JS `String.prototype.trimEnd` / `trim` whitespace: the ECMAScript
WhiteSpace code points (TAB, VT, FF, SPACE, NBSP, ZWNBSP and the Unicode
space separators U+1680, U+2000–U+200A, U+202F, U+205F, U+3000) together
with the LineTerminator code points (LF, CR, LS U+2028, PS U+2029). -/
def jsWhitespace (c : Char) : Bool :=
  c = ' ' ∨ c = '\t' ∨ c = '\n' ∨ c = '\r' ∨ c = Char.ofNat 11 ∨ c = Char.ofNat 12 ∨
    c = Char.ofNat 160 ∨ c = Char.ofNat 5760 ∨
    (8192 ≤ c.toNat ∧ c.toNat ≤ 8202) ∨ c = Char.ofNat 8232 ∨ c = Char.ofNat 8233 ∨
    c = Char.ofNat 8239 ∨ c = Char.ofNat 8287 ∨ c = Char.ofNat 12288 ∨
    c = Char.ofNat 65279

/-- `text.trimEnd()`. -/
def jsTrimEnd (l : List Char) : List Char :=
  (l.reverse.dropWhile jsWhitespace).reverse

/-- `text.trim()`. -/
def jsTrim (l : List Char) : List Char :=
  ((l.dropWhile jsWhitespace).reverse.dropWhile jsWhitespace).reverse

/-- The characters of screen row `row` between columns `c0` and `c1`
inclusive, existing cells only (the `if (this.screen[row] && …)` guard). -/
def rowChars (s : TermState) (row : Nat) (c0 c1 : Nat) : List Char :=
  if c0 ≤ c1 then
    (List.range' c0 (c1 + 1 - c0)).filterMap
      (fun col => (s.screen.get? row).bind (fun r => (r.get? col).map Cell.char))
  else []

/-- `getScreenText()`: each visible row's guarded characters, trailing
whitespace stripped, joined with newlines. -/
def getScreenText (s : TermState) : String :=
  String.mk (List.intercalate ['\n']
    ((List.range s.rows).map (fun row =>
      jsTrimEnd (if s.cols = 0 then [] else rowChars s row 0 (s.cols - 1)))))

/-- `copySelection(startRow, startCol, endRow, endCol)`: first row from
`startCol`, last row to `endCol`, full rows in between, newline-joined, the
whole result trimmed at both ends.  The clipboard write has no state effect;
the `FeatureDisabled` throw cannot fire with the fixed configuration. -/
def copySelection (s : TermState) (startRow startCol endRow endCol : Nat) :
    Option String :=
  if enableClipboardCfg then
    let rowsSel := if startRow ≤ endRow then List.range' startRow (endRow + 1 - startRow) else []
    some (String.mk (jsTrim (List.intercalate ['\n'] (rowsSel.map (fun row =>
      let c0 := if row = startRow then startCol else 0
      let c1 := if row = endRow then endCol else s.cols - 1
      rowChars s row c0 c1)))))
  else none

/-- The state built by the constructor. -/
def initialState : TermState :=
  { cursorX := 0, cursorY := 0, rows := 24, cols := 80, scrollTop := 0, scrollBottom := 23,
    wraparound := true, applicationCursor := false, attributes := defaultAttributes,
    screen := List.replicate 24 (blankRow 80 defaultAttributes), scrollback := [],
    savedCursor := none, sessionLog := [], isReplaying := false, replayIndex := 0,
    replayData := [] }

/-- One external operation: a `write(data)` call or a `resize(rows, cols)`
call. -/
inductive TermOp where
  | write (data : List Char)
  | resize (rows cols : Nat)

/-- Run one external operation (`resize` never throws). -/
def applyOp (s : TermState) : TermOp → Option TermState
  | .write d => write s d
  | .resize r c => some (resize s r c)

/-- The spec restricts dimensions to positive integers; `write` accepts
anything. -/
def ValidOp : TermOp → Prop
  | .write _ => True
  | .resize r c => 1 ≤ r ∧ 1 ≤ c

/-- Run a sequence of external operations from a state. -/
def runOps (s : TermState) (ops : List TermOp) : Option TermState :=
  ops.foldlM applyOp s

end TermCore

namespace TermCore

theorem mapIdxFrom_length (f : Nat → α → α) (l : List α) :
    ∀ k, (mapIdxFrom f k l).length = l.length := by
  induction l with
  | nil => intro k; rfl
  | cons a as ih => intro k; simp [mapIdxFrom, ih]

theorem jsMapIdx_length (f : Nat → α → α) (l : List α) :
    (jsMapIdx f l).length = l.length :=
  mapIdxFrom_length f l 0

theorem get?_mapIdxFrom (f : Nat → α → α) (l : List α) :
    ∀ k i, (mapIdxFrom f k l).get? i = (l.get? i).map (f (k + i)) := by
  induction l with
  | nil => intro k i; simp [mapIdxFrom]
  | cons a as ih =>
      intro k i
      cases i with
      | zero => simp [mapIdxFrom]
      | succ n =>
          have := ih (k + 1) n
          simp only [mapIdxFrom, List.get?_cons_succ, this, Option.map]
          rw [show k + (n + 1) = k + 1 + n by omega]

theorem get?_jsMapIdx (f : Nat → α → α) (l : List α) (i : Nat) :
    (jsMapIdx f l).get? i = (l.get? i).map (f i) := by
  rw [jsMapIdx, get?_mapIdxFrom]
  simp

theorem mem_jsMapIdx {f : Nat → α → α} {l : List α} {b : α}
    (h : b ∈ jsMapIdx f l) : ∃ i a, l.get? i = some a ∧ b = f i a := by
  obtain ⟨i, hi⟩ := List.mem_iff_get?.mp h
  rw [get?_jsMapIdx] at hi
  cases hget : l.get? i with
  | none => rw [hget] at hi; simp at hi
  | some a =>
      rw [hget] at hi
      simp only [Option.map_some', Option.some.injEq] at hi
      exact ⟨i, a, hget, hi.symm⟩

theorem processOutputGo_stable (text : List Char) :
    ∀ f1 f2 s i, text.length ≤ i + f1 → text.length ≤ i + f2 →
      processOutputGo s text i f1 = processOutputGo s text i f2 := by
  intro f1
  induction f1 with
  | zero =>
      intro f2 s i h1 h2
      have hnone : text.get? i = none := by
        rw [List.get?_eq_none]
        omega
      cases f2 with
      | zero => rfl
      | succ g2 => simp only [processOutputGo, hnone]
  | succ g1 ih =>
      intro f2 s i h1 h2
      cases f2 with
      | zero =>
          have hnone : text.get? i = none := by
            rw [List.get?_eq_none]
            omega
          simp only [processOutputGo, hnone]
      | succ g2 =>
          cases hget : text.get? i with
          | none => simp only [processOutputGo, hget]
          | some c =>
              have hi : i < text.length := (List.get?_eq_some.mp hget).1
              simp only [processOutputGo, hget]
              by_cases h1c : c = escCh
              · rw [if_pos h1c, if_pos h1c]
                cases hseq : processEscapeSequence s text i with
                | mk os j =>
                    have hj := processEscapeSequence_progress s text i
                    rw [hseq] at hj
                    cases os with
                    | none => rfl
                    | some s' =>
                        show processOutputGo s' text j g1 = processOutputGo s' text j g2
                        have hj2 : i < j := hj
                        exact ih g2 s' j (by omega) (by omega)
              · rw [if_neg h1c, if_neg h1c]
                by_cases h2c : c = '\r'
                · rw [if_pos h2c, if_pos h2c]
                  exact ih g2 _ (i + 1) (by omega) (by omega)
                · rw [if_neg h2c, if_neg h2c]
                  by_cases h3c : c = '\n'
                  · rw [if_pos h3c, if_pos h3c]
                    exact ih g2 _ (i + 1) (by omega) (by omega)
                  · rw [if_neg h3c, if_neg h3c]
                    by_cases h4c : c = '\t'
                    · rw [if_pos h4c, if_pos h4c]
                      exact ih g2 _ (i + 1) (by omega) (by omega)
                    · rw [if_neg h4c, if_neg h4c]
                      by_cases h5c : c = bsCh
                      · rw [if_pos h5c, if_pos h5c]
                        exact ih g2 _ (i + 1) (by omega) (by omega)
                      · rw [if_neg h5c, if_neg h5c]
                        by_cases h6c : 32 ≤ c.toNat
                        · rw [if_pos h6c, if_pos h6c]
                          cases insertCharacter s c with
                          | none => rfl
                          | some s' =>
                              show processOutputGo s' text (i + 1) g1 =
                                processOutputGo s' text (i + 1) g2
                              exact ih g2 s' (i + 1) (by omega) (by omega)
                        · rw [if_neg h6c, if_neg h6c]
                          exact ih g2 s (i + 1) (by omega) (by omega)

theorem rowSet_length (row : List Cell) (x : Int) (c : Cell) :
    (rowSet row x c).length = if x < 0 then row.length else max row.length (x.toNat + 1) := by
  rw [rowSet]
  by_cases hx : x < 0
  · rw [if_pos hx, if_pos hx]
  · rw [if_neg hx, if_neg hx]
    by_cases hlt : x.toNat < row.length
    · rw [if_pos hlt]
      simp
      omega
    · rw [if_neg hlt]
      simp
      omega

theorem setCell_length {screen : List (List Cell)} {y x : Int} {c : Cell} {sc : List (List Cell)}
    (h : setCell screen y x c = some sc) : sc.length = screen.length := by
  rw [setCell] at h
  by_cases hy : 0 ≤ y ∧ y.toNat < screen.length
  · rw [if_pos hy] at h
    by_cases he : (screen.getD y.toNat []).isEmpty
    · simp only [he, if_pos] at h
      cases h
    · simp only [he, Bool.false_eq_true, if_false, Option.some.injEq] at h
      subst h
      simp
  · rw [if_neg hy] at h
    cases h

theorem get?_of_lt {l : List α} {i : Nat} (h : i < l.length) :
    l.get? i = some (l.getD i d) := by
  rw [List.getD_eq_getElem?_getD, ← List.get?_eq_getElem?]
  cases hq : l.get? i with
  | none =>
      rw [List.get?_eq_none] at hq
      omega
  | some r => rfl

theorem setCell_get? {screen : List (List Cell)} {y x : Int} {c : Cell} {sc : List (List Cell)}
    (h : setCell screen y x c = some sc) (i : Nat) :
    sc.get? i = if i = y.toNat then (screen.get? i).map (fun r => rowSet r x c)
                else screen.get? i := by
  rw [setCell] at h
  by_cases hy : 0 ≤ y ∧ y.toNat < screen.length
  · rw [if_pos hy] at h
    by_cases he : (screen.getD y.toNat []).isEmpty
    · simp only [he, if_pos] at h
      cases h
    · simp only [he, Bool.false_eq_true, if_false, Option.some.injEq] at h
      subst h
      by_cases hi : i = y.toNat
      · subst hi
        rw [if_pos rfl, List.get?_set_eq_of_lt _ hy.2, get?_of_lt hy.2]
        rfl
      · rw [if_neg hi, List.get?_set_ne _ _ (fun hh => hi hh.symm)]
  · rw [if_neg hy] at h
    cases h

theorem setCell_isSome {screen : List (List Cell)} {y x : Int} {c : Cell}
    (hy : 0 ≤ y) (hlen : y.toNat < screen.length)
    (hne : ¬ (screen.getD y.toNat []).isEmpty) :
    setCell screen y x c = some (screen.set y.toNat (rowSet (screen.getD y.toNat []) x c)) := by
  rw [setCell, if_pos ⟨hy, hlen⟩]
  simp only [hne, Bool.false_eq_true, if_false]

theorem clearRowScreen_length (screen : List (List Cell)) (r : Int) (blank : List Cell) :
    (clearRowScreen screen r blank).length =
      if r < 0 then screen.length else max screen.length (r.toNat + 1) := by
  rw [clearRowScreen]
  by_cases hr : r < 0
  · rw [if_pos hr, if_pos hr]
  · rw [if_neg hr, if_neg hr]
    by_cases hlt : r.toNat < screen.length
    · rw [if_pos hlt]
      simp
      omega
    · rw [if_neg hlt]
      simp
      omega

theorem clearRowScreen_get? (screen : List (List Cell)) (r : Int) (blank : List Cell) (i : Nat) :
    (clearRowScreen screen r blank).get? i =
      if 0 ≤ r ∧ i = r.toNat then some blank
      else if i < screen.length then screen.get? i
      else if 0 ≤ r ∧ i < r.toNat then some ([] : List Cell)
      else none := by
  rw [clearRowScreen]
  by_cases hr : r < 0
  · rw [if_pos hr, if_neg (by omega : ¬ (0 ≤ r ∧ i = r.toNat)),
      if_neg (by omega : ¬ (0 ≤ r ∧ i < r.toNat))]
    by_cases hi : i < screen.length
    · rw [if_pos hi]
    · rw [if_neg hi, List.get?_eq_none.mpr (by omega)]
  · rw [if_neg hr]
    by_cases hlt : r.toNat < screen.length
    · rw [if_pos hlt]
      by_cases hi : i = r.toNat
      · subst hi
        rw [if_pos ⟨by omega, rfl⟩, List.get?_set_eq_of_lt _ hlt]
      · rw [if_neg (by omega), List.get?_set_ne _ _ (fun hh => hi hh.symm)]
        by_cases h2 : i < screen.length
        · rw [if_pos h2]
        · rw [if_neg h2, if_neg (by omega), List.get?_eq_none.mpr (by omega)]
    · rw [if_neg hlt]
      by_cases hi : i = r.toNat
      · subst hi
        rw [if_pos ⟨by omega, rfl⟩]
        rw [List.get?_append_right
          (by simp only [List.length_append, List.length_replicate]; omega)]
        simp only [List.length_append, List.length_replicate]
        rw [show r.toNat - (screen.length + (r.toNat - screen.length)) = 0 from by omega]
        rfl
      · by_cases h2 : i < screen.length
        · rw [if_neg (by omega), if_pos h2]
          rw [List.get?_append
            (by simp only [List.length_append, List.length_replicate]; omega)]
          rw [List.get?_append h2]
        · by_cases h3 : i < r.toNat
          · rw [if_neg (by omega), if_neg h2, if_pos (by omega)]
            rw [List.get?_append
              (by simp only [List.length_append, List.length_replicate]; omega)]
            rw [List.get?_append_right (by omega)]
            rw [List.get?_eq_getElem?, List.getElem?_replicate, if_pos (by omega)]
          · rw [if_neg (by omega), if_neg h2, if_neg (by omega)]
            rw [List.get?_eq_none.mpr
              (by simp only [List.length_append, List.length_replicate,
                    List.length_cons, List.length_nil]; omega)]

/-- Row-width facts for the visible grid: every row index below `rows` holds a
row whose length is `cols` or `cols + 1` (the latter arises from erase-line
mode 1 at a cursor sitting one past the last column). -/
def RowsOk (s : TermState) : Prop :=
  ∀ i r, i < s.rows → s.screen.get? i = some r → s.cols ≤ r.length ∧ r.length ≤ s.cols + 1

/-- Structural facts maintained by every operation: positive dimensions, a
screen at least `rows` long, and a scroll bottom inside the grid. -/
def ShapeInv (s : TermState) : Prop :=
  1 ≤ s.rows ∧ 1 ≤ s.cols ∧ s.rows ≤ s.screen.length ∧ s.scrollBottom + 1 ≤ s.rows

/-- Cursor facts that hold as long as no cursor has ever been saved (a
`restoreCursor` of a snapshot taken before a narrowing `resize` or a
scroll-region change can break every one of them). -/
def CursorFacts (s : TermState) : Prop :=
  s.cursorX ≤ (s.cols : Int) ∧ RowsOk s ∧
    (s.scrollTop = 0 → 0 ≤ s.cursorY) ∧
    (s.scrollTop = 0 ∧ s.scrollBottom + 1 = s.rows → s.cursorY + 1 ≤ (s.rows : Int))

/-- The inductive state invariant of the engine. -/
def Inv (s : TermState) : Prop :=
  ShapeInv s ∧ 0 ≤ s.cursorX ∧ (∀ c, s.savedCursor = some c → 0 ≤ c.x) ∧
    (s.savedCursor = none → CursorFacts s)

theorem inv_carriageReturn {s : TermState} (h : Inv s) : Inv { s with cursorX := 0 } := by
  obtain ⟨hs, hx, hsv, hcf⟩ := h
  refine ⟨hs, le_refl 0, hsv, fun hn => ?_⟩
  obtain ⟨h1, h2, h3, h4⟩ := hcf hn
  exact ⟨by dsimp only; omega, h2, h3, h4⟩

theorem inv_backspace {s : TermState} (h : Inv s) : Inv (backspace s) := by
  obtain ⟨hs, hx, hsv, hcf⟩ := h
  rw [backspace]
  by_cases hc : 0 < s.cursorX
  · rw [if_pos hc]
    refine ⟨hs, by dsimp only; omega, hsv, fun hn => ?_⟩
    obtain ⟨h1, h2, h3, h4⟩ := hcf hn
    exact ⟨by dsimp only; omega, h2, h3, h4⟩
  · rw [if_neg hc]
    exact ⟨hs, hx, hsv, hcf⟩

theorem inv_tab {s : TermState} (h : Inv s) : Inv (tab s) := by
  obtain ⟨⟨hr, hc, hl, hb⟩, hx, hsv, hcf⟩ := h
  rw [tab]
  have hfd : 0 ≤ (s.cursorX + (tabSize : Int)).fdiv (tabSize : Int) :=
    Int.fdiv_nonneg (by omega) (by norm_num [tabSize])
  have hnt : 0 ≤ (s.cursorX + (tabSize : Int)).fdiv (tabSize : Int) * (tabSize : Int) := by
    positivity
  refine ⟨⟨hr, hc, hl, hb⟩, ?_, hsv, fun hn => ?_⟩
  · simp only []
    omega
  · obtain ⟨h1, h2, h3, h4⟩ := hcf hn
    exact ⟨by dsimp only; omega, h2, h3, h4⟩

theorem inv_cursorUp {s : TermState} (h : Inv s) (n : Nat) : Inv (cursorUp s n) := by
  obtain ⟨⟨hr, hc, hl, hb⟩, hx, hsv, hcf⟩ := h
  rw [cursorUp]
  refine ⟨⟨hr, hc, hl, hb⟩, hx, hsv, fun hn => ?_⟩
  obtain ⟨h1, h2, h3, h4⟩ := hcf hn
  refine ⟨h1, h2, fun h0 => ?_, fun hful => ?_⟩
  · dsimp only at h0 ⊢
    omega
  · dsimp only at hful ⊢
    have := h4 hful
    omega

theorem inv_cursorDown {s : TermState} (h : Inv s) (n : Nat) : Inv (cursorDown s n) := by
  obtain ⟨⟨hr, hc, hl, hb⟩, hx, hsv, hcf⟩ := h
  rw [cursorDown]
  refine ⟨⟨hr, hc, hl, hb⟩, hx, hsv, fun hn => ?_⟩
  obtain ⟨h1, h2, h3, h4⟩ := hcf hn
  refine ⟨h1, h2, fun h0 => ?_, fun hful => ?_⟩
  · dsimp only at h0 ⊢
    have := h3 h0
    omega
  · dsimp only at hful ⊢
    omega

theorem inv_cursorRight {s : TermState} (h : Inv s) (n : Nat) : Inv (cursorRight s n) := by
  obtain ⟨⟨hr, hc, hl, hb⟩, hx, hsv, hcf⟩ := h
  rw [cursorRight]
  refine ⟨⟨hr, hc, hl, hb⟩, by dsimp only; omega, hsv, fun hn => ?_⟩
  obtain ⟨h1, h2, h3, h4⟩ := hcf hn
  exact ⟨by dsimp only; omega, h2, h3, h4⟩

theorem inv_cursorLeft {s : TermState} (h : Inv s) (n : Nat) : Inv (cursorLeft s n) := by
  obtain ⟨⟨hr, hc, hl, hb⟩, hx, hsv, hcf⟩ := h
  rw [cursorLeft]
  refine ⟨⟨hr, hc, hl, hb⟩, by dsimp only; omega, hsv, fun hn => ?_⟩
  obtain ⟨h1, h2, h3, h4⟩ := hcf hn
  exact ⟨by dsimp only; omega, h2, h3, h4⟩

theorem inv_setCursorPosition {s : TermState} (h : Inv s) (r c : Nat) :
    Inv (setCursorPosition s r c) := by
  obtain ⟨⟨hr, hc, hl, hb⟩, hx, hsv, hcf⟩ := h
  rw [setCursorPosition]
  refine ⟨⟨hr, hc, hl, hb⟩, by dsimp only; omega, hsv, fun hn => ?_⟩
  obtain ⟨h1, h2, h3, h4⟩ := hcf hn
  exact ⟨by dsimp only; omega, h2, by dsimp only; omega, by dsimp only; omega⟩

theorem inv_setGraphicsRendition {s : TermState} (h : Inv s) (ps : List Nat) :
    Inv (setGraphicsRendition s ps) := by
  obtain ⟨hs, hx, hsv, hcf⟩ := h
  rw [setGraphicsRendition]
  exact ⟨hs, hx, hsv, hcf⟩

theorem inv_saveCursor {s : TermState} (h : Inv s) : Inv (saveCursor s) := by
  obtain ⟨hs, hx, hsv, hcf⟩ := h
  rw [saveCursor]
  refine ⟨hs, hx, fun c hc => ?_, fun hn => by cases hn⟩
  simp only [Option.some.injEq] at hc
  subst hc
  exact hx

theorem inv_restoreCursor {s : TermState} (h : Inv s) : Inv (restoreCursor s) := by
  obtain ⟨hs, hx, hsv, hcf⟩ := h
  rw [restoreCursor]
  cases hc : s.savedCursor with
  | none => exact ⟨hs, hx, hsv, hcf⟩
  | some c =>
      refine ⟨hs, hsv c hc, fun c2 hc2 => ?_, fun hn => ?_⟩
      · dsimp only at hc2
        cases hc2
        exact hsv c hc
      · dsimp only at hn
        cases hn

theorem inv_setMode {s : TermState} (h : Inv s) (ps : List Nat) (b : Bool) :
    Inv (setMode s ps b) := by
  rw [setMode]
  induction ps generalizing s with
  | nil => exact h
  | cons p rest ih =>
      simp only [List.foldl_cons]
      by_cases hp : p = 1
      · rw [if_pos hp]
        obtain ⟨hs, hx, hsv, hcf⟩ := h
        exact ih ⟨hs, hx, hsv, fun hn => hcf hn⟩
      · rw [if_neg hp]
        exact ih h

theorem inv_clearRow {s : TermState} (h : Inv s) (r : Int) : Inv (clearRow s r) := by
  obtain ⟨⟨hr, hc, hl, hb⟩, hx, hsv, hcf⟩ := h
  rw [clearRow]
  refine ⟨⟨hr, hc, ?_, hb⟩, hx, hsv, fun hn => ?_⟩
  · dsimp only
    rw [clearRowScreen_length]
    split <;> omega
  · obtain ⟨h1, h2, h3, h4⟩ := hcf hn
    refine ⟨h1, ?_, h3, h4⟩
    intro i row hi hrow
    dsimp only at hi hrow
    rw [clearRowScreen_get?] at hrow
    by_cases hc1 : 0 ≤ r ∧ i = r.toNat
    · rw [if_pos hc1] at hrow
      cases hrow
      rw [blankRow]
      simp
    · rw [if_neg hc1] at hrow
      by_cases hc2 : i < s.screen.length
      · rw [if_pos hc2] at hrow
        exact h2 i row hi hrow
      · rw [if_neg hc2] at hrow
        omega

theorem inv_scrollUp {s : TermState} (h : Inv s) : Inv (scrollUp s) := by
  obtain ⟨⟨hr, hc, hl, hb⟩, hx, hsv, hcf⟩ := h
  rw [scrollUp]
  refine ⟨⟨hr, hc, ?_, hb⟩, hx, hsv, fun hn => ?_⟩
  · dsimp only
    rw [jsMapIdx_length]
    exact hl
  · obtain ⟨h1, h2, h3, h4⟩ := hcf hn
    refine ⟨h1, ?_, h3, h4⟩
    intro i row hi hrow
    dsimp only at hi hrow
    rw [get?_jsMapIdx] at hrow
    cases hq : s.screen.get? i with
    | none => rw [hq] at hrow; cases hrow
    | some orig =>
        rw [hq] at hrow
        simp only [Option.map_some', Option.some.injEq] at hrow
        subst hrow
        by_cases hb1 : s.scrollTop ≤ i ∧ i < s.scrollBottom
        · rw [if_pos hb1]
          have hi1 : i + 1 < s.rows := by omega
          have : s.screen.get? (i + 1) = some (s.screen.getD (i + 1) []) :=
            get?_of_lt (by omega)
          exact h2 (i + 1) _ hi1 this
        · rw [if_neg hb1]
          by_cases hb2 : i = s.scrollBottom
          · rw [if_pos hb2, blankRow]
            simp
          · rw [if_neg hb2]
            exact h2 i orig hi hq

theorem inv_lineFeed {s : TermState} (h : Inv s) : Inv (lineFeed s) := by
  rw [lineFeed]
  by_cases hy : s.cursorY = (s.scrollBottom : Int)
  · rw [if_pos hy]
    exact inv_scrollUp h
  · rw [if_neg hy]
    obtain ⟨⟨hr, hc, hl, hb⟩, hx, hsv, hcf⟩ := h
    refine ⟨⟨hr, hc, hl, hb⟩, hx, hsv, fun hn => ?_⟩
    obtain ⟨h1, h2, h3, h4⟩ := hcf hn
    refine ⟨h1, h2, fun h0 => ?_, fun hful => ?_⟩
    · dsimp only at h0 ⊢
      have := h3 h0
      omega
    · dsimp only at hful ⊢
      have := h4 hful
      omega

theorem inv_scrollDown {s : TermState} (h : Inv s) : Inv (scrollDown s) := by
  obtain ⟨⟨hr, hc, hl, hb⟩, hx, hsv, hcf⟩ := h
  rw [scrollDown, clearRow]
  refine ⟨⟨hr, hc, ?_, hb⟩, hx, hsv, fun hn => ?_⟩
  · dsimp only
    rw [clearRowScreen_length]
    rw [jsMapIdx_length]
    split <;> omega
  · obtain ⟨h1, h2, h3, h4⟩ := hcf hn
    refine ⟨h1, ?_, h3, h4⟩
    intro i row hi hrow
    dsimp only at hi hrow
    rw [clearRowScreen_get?] at hrow
    by_cases hc1 : 0 ≤ (s.scrollTop : Int) ∧ i = (s.scrollTop : Int).toNat
    · rw [if_pos hc1] at hrow
      cases hrow
      rw [blankRow]
      simp
    · rw [if_neg hc1] at hrow
      by_cases hc2 : i < (jsMapIdx (fun i r =>
          if s.scrollTop < i ∧ i ≤ s.scrollBottom then s.screen.getD (i - 1) [] else r)
            s.screen).length
      · rw [if_pos hc2] at hrow
        rw [get?_jsMapIdx] at hrow
        cases hq : s.screen.get? i with
        | none => rw [hq] at hrow; cases hrow
        | some orig =>
            rw [hq] at hrow
            simp only [Option.map_some', Option.some.injEq] at hrow
            subst hrow
            by_cases hb1 : s.scrollTop < i ∧ i ≤ s.scrollBottom
            · rw [if_pos hb1]
              have : s.screen.get? (i - 1) = some (s.screen.getD (i - 1) []) :=
                get?_of_lt (by omega)
              exact h2 (i - 1) _ (by omega) this
            · rw [if_neg hb1]
              exact h2 i orig hi hq
      · rw [if_neg hc2] at hrow
        rw [jsMapIdx_length] at hc2
        omega

theorem inv_index {s : TermState} (h : Inv s) : Inv (index s) := by
  rw [index]
  by_cases hy : s.cursorY = (s.scrollBottom : Int)
  · rw [if_pos hy]
    exact inv_scrollUp h
  · rw [if_neg hy]
    obtain ⟨⟨hr, hc, hl, hb⟩, hx, hsv, hcf⟩ := h
    refine ⟨⟨hr, hc, hl, hb⟩, hx, hsv, fun hn => ?_⟩
    obtain ⟨h1, h2, h3, h4⟩ := hcf hn
    refine ⟨h1, h2, fun h0 => ?_, fun hful => ?_⟩
    · dsimp only at h0 ⊢
      have := h3 h0
      omega
    · dsimp only at hful ⊢
      have := h4 hful
      omega

theorem inv_reverseIndex {s : TermState} (h : Inv s) : Inv (reverseIndex s) := by
  rw [reverseIndex]
  by_cases hy : s.cursorY = (s.scrollTop : Int)
  · rw [if_pos hy]
    exact inv_scrollDown h
  · rw [if_neg hy]
    obtain ⟨⟨hr, hc, hl, hb⟩, hx, hsv, hcf⟩ := h
    refine ⟨⟨hr, hc, hl, hb⟩, hx, hsv, fun hn => ?_⟩
    obtain ⟨h1, h2, h3, h4⟩ := hcf hn
    refine ⟨h1, h2, fun h0 => ?_, fun hful => ?_⟩
    · dsimp only at h0 ⊢
      have := h3 h0
      omega
    · dsimp only at hful ⊢
      have := h4 hful
      omega

theorem inv_nextLine {s : TermState} (h : Inv s) : Inv (nextLine s) := by
  rw [nextLine]
  exact inv_index (inv_carriageReturn h)

theorem lineFeed_cursorX (t : TermState) : (lineFeed t).cursorX = t.cursorX := by
  rw [lineFeed]
  split <;> rfl

theorem lineFeed_cols (t : TermState) : (lineFeed t).cols = t.cols := by
  rw [lineFeed]
  split <;> rfl

theorem lineFeed_savedCursor (t : TermState) : (lineFeed t).savedCursor = t.savedCursor := by
  rw [lineFeed]
  split <;> rfl

theorem insertCharacter_write {s1 s' : TermState} {c : Char} (hinv1 : Inv s1)
    (hxle : s1.savedCursor = none → s1.cursorX ≤ (s1.cols : Int) - 1)
    (hm : (match setCell s1.screen s1.cursorY s1.cursorX
            { char := c, attributes := s1.attributes } with
          | some sc => some { s1 with screen := sc, cursorX := s1.cursorX + 1 }
          | none => none) = some s') : Inv s' := by
  cases hset : setCell s1.screen s1.cursorY s1.cursorX
      { char := c, attributes := s1.attributes } with
  | none => rw [hset] at hm; cases hm
  | some sc =>
      rw [hset] at hm
      simp only [Option.some.injEq] at hm
      subst hm
      obtain ⟨⟨hr, hc2, hl, hb⟩, hx, hsv, hcf⟩ := hinv1
      refine ⟨⟨hr, hc2, ?_, hb⟩, by dsimp only; omega, hsv, fun hn => ?_⟩
      · dsimp only
        rw [setCell_length hset]
        exact hl
      · dsimp only at hn
        obtain ⟨h1, h2, h3, h4⟩ := hcf hn
        have hxle2 : s1.cursorX ≤ (s1.cols : Int) - 1 := hxle hn
        refine ⟨by dsimp only; omega, ?_, h3, h4⟩
        intro i row hi hrow
        dsimp only at hi hrow ⊢
        rw [setCell_get? hset] at hrow
        by_cases hieq : i = s1.cursorY.toNat
        · rw [if_pos hieq] at hrow
          cases hq : s1.screen.get? i with
          | none => rw [hq] at hrow; cases hrow
          | some orig =>
              rw [hq] at hrow
              simp only [Option.map_some', Option.some.injEq] at hrow
              subst hrow
              have horig := h2 i orig hi hq
              rw [rowSet_length]
              split
              · exact horig
              · omega
        · rw [if_neg hieq] at hrow
          exact h2 i row hi hrow

theorem inv_insertCharacter {s s' : TermState} (h : Inv s) (c : Char)
    (hstep : insertCharacter s c = some s') : Inv s' := by
  have hinv := h
  obtain ⟨⟨hr, hc2, hl, hb⟩, hx, hsv, hcf⟩ := hinv
  rw [insertCharacter] at hstep
  by_cases hov : (s.cols : Int) ≤ s.cursorX
  · rw [if_pos hov] at hstep
    by_cases hw : s.wraparound
    · rw [if_pos hw] at hstep
      refine insertCharacter_write (inv_lineFeed (inv_carriageReturn h)) ?_ hstep
      intro _
      rw [lineFeed_cursorX, lineFeed_cols]
      dsimp only
      omega
    · rw [if_neg hw] at hstep
      refine insertCharacter_write ?_ ?_ hstep
      · refine ⟨⟨hr, hc2, hl, hb⟩, by dsimp only; omega, hsv, fun hn => ?_⟩
        obtain ⟨h1, h2, h3, h4⟩ := hcf hn
        exact ⟨by dsimp only; omega, h2, h3, h4⟩
      · intro _
        dsimp only
        omega
  · rw [if_neg hov] at hstep
    refine insertCharacter_write h ?_ hstep
    intro _
    omega

theorem writeCells_length {y : Int} {c : Cell} :
    ∀ {xs : List Nat} {sc sc' : List (List Cell)},
      writeCells sc y xs c = some sc' → sc'.length = sc.length := by
  intro xs
  induction xs with
  | nil =>
      intro sc sc' h
      rw [writeCells] at h
      simp only [List.foldlM_nil, Option.pure_def, Option.some.injEq] at h
      rw [h]
  | cons x rest ih =>
      intro sc sc' h
      rw [writeCells] at h
      simp only [List.foldlM_cons] at h
      cases h1 : setCell sc y (x : Int) c with
      | none => rw [h1] at h; cases h
      | some sc1 =>
          rw [h1] at h
          simp only [Option.bind_eq_bind, Option.some_bind] at h
          have := @ih sc1 sc' h
          rw [this, setCell_length h1]

theorem writeCells_rowBounds {y : Int} {c : Cell} {cols rows : Nat} :
    ∀ {xs : List Nat} {sc sc' : List (List Cell)},
      writeCells sc y xs c = some sc' →
      (∀ x ∈ xs, x ≤ cols) →
      (∀ i r, i < rows → sc.get? i = some r → cols ≤ r.length ∧ r.length ≤ cols + 1) →
      (∀ i r, i < rows → sc'.get? i = some r → cols ≤ r.length ∧ r.length ≤ cols + 1) := by
  intro xs
  induction xs with
  | nil =>
      intro sc sc' h _ hb
      rw [writeCells] at h
      simp only [List.foldlM_nil, Option.pure_def, Option.some.injEq] at h
      rw [← h]
      exact hb
  | cons x rest ih =>
      intro sc sc' h hxs hb
      rw [writeCells] at h
      simp only [List.foldlM_cons] at h
      cases h1 : setCell sc y (x : Int) c with
      | none => rw [h1] at h; cases h
      | some sc1 =>
          rw [h1] at h
          simp only [Option.bind_eq_bind, Option.some_bind] at h
          refine ih h (fun z hz => hxs z (List.mem_cons_of_mem _ hz)) ?_
          intro i r hi hr
          rw [setCell_get? h1] at hr
          by_cases hieq : i = y.toNat
          · rw [if_pos hieq] at hr
            cases hq : sc.get? i with
            | none => rw [hq] at hr; cases hr
            | some orig =>
                rw [hq] at hr
                simp only [Option.map_some', Option.some.injEq] at hr
                subst hr
                have horig := hb i orig hi hq
                have hxc : x ≤ cols := hxs x (List.mem_cons_self _ _)
                rw [rowSet_length]
                split
                · exact horig
                · simp only [Int.toNat_ofNat]
                  omega
          · rw [if_neg hieq] at hr
            exact hb i r hi hr

theorem inv_eraseLine {s s' : TermState} (h : Inv s) (m : Nat)
    (hstep : eraseLine s m = some s') : Inv s' := by
  obtain ⟨⟨hr, hc2, hl, hb⟩, hx, hsv, hcf⟩ := h
  rw [eraseLine] at hstep
  by_cases hm0 : m = 0
  · rw [if_pos hm0] at hstep
    simp only [Option.map_eq_map, Option.map_eq_some'] at hstep
    obtain ⟨sc, hw, hs'⟩ := hstep
    subst hs'
    refine ⟨⟨hr, hc2, ?_, hb⟩, hx, hsv, fun hn => ?_⟩
    · dsimp only
      rw [writeCells_length hw]
      exact hl
    · dsimp only at hn
      obtain ⟨h1, h2, h3, h4⟩ := hcf hn
      refine ⟨h1, ?_, h3, h4⟩
      intro i row hi hrow
      dsimp only at hi hrow ⊢
      refine writeCells_rowBounds hw ?_ h2 i row hi hrow
      intro z hz
      rw [List.mem_filter] at hz
      have := List.mem_range.mp hz.1
      omega
  · rw [if_neg hm0] at hstep
    by_cases hm1 : m = 1
    · rw [if_pos hm1] at hstep
      simp only [Option.map_eq_map, Option.map_eq_some'] at hstep
      obtain ⟨sc, hw, hs'⟩ := hstep
      subst hs'
      refine ⟨⟨hr, hc2, ?_, hb⟩, hx, hsv, fun hn => ?_⟩
      · dsimp only
        rw [writeCells_length hw]
        exact hl
      · dsimp only at hn
        obtain ⟨h1, h2, h3, h4⟩ := hcf hn
        refine ⟨h1, ?_, h3, h4⟩
        intro i row hi hrow
        dsimp only at hi hrow ⊢
        refine writeCells_rowBounds hw ?_ h2 i row hi hrow
        intro z hz
        by_cases hneg : s.cursorX < 0
        · rw [if_pos hneg] at hz
          cases hz
        · rw [if_neg hneg] at hz
          have := List.mem_range.mp hz
          have hxc := h1
          omega
    · rw [if_neg hm1] at hstep
      by_cases hm2 : m = 2
      · rw [if_pos hm2] at hstep
        simp only [Option.some.injEq] at hstep
        subst hstep
        exact inv_clearRow ⟨⟨hr, hc2, hl, hb⟩, hx, hsv, hcf⟩ s.cursorY
      · rw [if_neg hm2] at hstep
        simp only [Option.some.injEq] at hstep
        subst hstep
        exact ⟨⟨hr, hc2, hl, hb⟩, hx, hsv, hcf⟩

theorem inv_foldl_step {α : Type} (g : TermState → α → TermState)
    (hg : ∀ t a, Inv t → Inv (g t a)) :
    ∀ (l : List α) (s : TermState), Inv s → Inv (l.foldl g s) := by
  intro l
  induction l with
  | nil => intro s h; exact h
  | cons a rest ih =>
      intro s h
      rw [List.foldl_cons]
      exact ih _ (hg s a h)

theorem inv_eraseDisplay {s s' : TermState} (h : Inv s) (m : Nat)
    (hstep : eraseDisplay s m = some s') : Inv s' := by
  rw [eraseDisplay] at hstep
  by_cases hm0 : m = 0
  · rw [if_pos hm0] at hstep
    simp only [Option.map_eq_map, Option.map_eq_some'] at hstep
    obtain ⟨s1, he, hs'⟩ := hstep
    subst hs'
    refine inv_foldl_step _ ?_ _ _ (inv_eraseLine h 0 he)
    intro t a hinv
    by_cases hcond : s.cursorY + 1 ≤ (a : Int)
    · rw [if_pos hcond]
      exact inv_clearRow hinv _
    · rw [if_neg hcond]
      exact hinv
  · rw [if_neg hm0] at hstep
    by_cases hm1 : m = 1
    · rw [if_pos hm1] at hstep
      refine inv_eraseLine ?_ 1 hstep
      refine inv_foldl_step _ ?_ _ _ h
      intro t a hinv
      exact inv_clearRow hinv _
    · rw [if_neg hm1] at hstep
      by_cases hm2 : m = 2
      · rw [if_pos hm2] at hstep
        simp only [Option.some.injEq] at hstep
        subst hstep
        refine inv_setCursorPosition ?_ 1 1
        refine inv_foldl_step _ ?_ _ _ h
        intro t a hinv
        exact inv_clearRow hinv _
      · rw [if_neg hm2] at hstep
        simp only [Option.some.injEq] at hstep
        subst hstep
        exact h

theorem inv_setScrollRegion {s : TermState} (h : Inv s) (top bottom : Nat) :
    Inv (setScrollRegion s top bottom) := by
  obtain ⟨⟨hr, hc2, hl, hb⟩, hx, hsv, hcf⟩ := h
  rw [setScrollRegion, setCursorPosition]
  refine ⟨⟨hr, hc2, hl, by dsimp only; omega⟩, by dsimp only; omega, hsv, fun hn => ?_⟩
  dsimp only at hn
  obtain ⟨h1, h2, h3, h4⟩ := hcf hn
  refine ⟨by dsimp only; omega, ?_, by dsimp only; omega, by dsimp only; omega⟩
  intro i row hi hrow
  dsimp only at hi hrow ⊢
  exact h2 i row hi hrow

theorem get?_take_of_lt {l : List α} {n m : Nat} (h : m < n) :
    (l.take n).get? m = l.get? m := by
  rw [List.get?_eq_getElem?, List.get?_eq_getElem?, List.getElem?_take_of_lt h]

theorem rowSet_foldRange_length (cell : Cell) :
    ∀ (n k : Nat) (r : List Cell),
      (((List.range' k n).foldl (fun rr (col : Nat) => rowSet rr (col : Int) cell) r).length)
        = if n = 0 then r.length else max r.length (k + n) := by
  intro n
  induction n with
  | zero => intro k r; simp
  | succ m ih =>
      intro k r
      rw [List.range'_succ, List.foldl_cons, ih (k + 1) (rowSet r (k : Int) cell),
        rowSet_length, if_neg (by omega : ¬((k : Int) < 0))]
      split <;> split <;> omega

theorem resizeRow_bounds {r : List Cell} {oldCols cols : Nat} {a : Attributes}
    (h1 : oldCols ≤ r.length) (h2 : r.length ≤ oldCols + 1) :
    cols ≤ (resizeRow r oldCols cols a).length ∧
      (resizeRow r oldCols cols a).length ≤ cols + 1 := by
  rw [resizeRow]
  by_cases hgrow : oldCols < cols
  · rw [if_pos hgrow, rowSet_foldRange_length, if_neg (by omega : ¬(cols - oldCols = 0))]
    omega
  · rw [if_neg hgrow]
    by_cases hshrink : cols < oldCols
    · rw [if_pos hshrink]
      simp only [List.length_take]
      omega
    · rw [if_neg hshrink]
      omega

theorem inv_resize {s : TermState} (h : Inv s) {rows cols : Nat}
    (hrows : 1 ≤ rows) (hcols : 1 ≤ cols) : Inv (resize s rows cols) := by
  obtain ⟨⟨hr, hc2, hl, hb⟩, hx, hsv, hcf⟩ := h
  simp only [resize]
  have hscreen1len : (if s.rows < rows then
      s.screen.take s.rows ++ List.replicate (rows - s.rows) (blankRow cols s.attributes)
        ++ s.screen.drop rows
    else if rows < s.rows then s.screen.take rows
    else s.screen).length ≥ rows := by
    split
    · simp only [List.length_append, List.length_take, List.length_replicate,
        List.length_drop]
      omega
    · split
      · simp only [List.length_take]
        omega
      · omega
  have hscreen1get : ∀ i, i < min rows s.rows →
      (if s.rows < rows then
        s.screen.take s.rows ++ List.replicate (rows - s.rows) (blankRow cols s.attributes)
          ++ s.screen.drop rows
      else if rows < s.rows then s.screen.take rows
      else s.screen).get? i = s.screen.get? i := by
    intro i hi
    split
    · rw [List.get?_append (by simp only [List.length_append, List.length_take,
        List.length_replicate]; omega)]
      rw [List.get?_append (by simp only [List.length_take]; omega)]
      exact get?_take_of_lt (by omega)
    · split
      · exact get?_take_of_lt (by omega)
      · rfl
  have hscreen1rep : ∀ i, s.rows ≤ i → i < rows →
      (if s.rows < rows then
        s.screen.take s.rows ++ List.replicate (rows - s.rows) (blankRow cols s.attributes)
          ++ s.screen.drop rows
      else if rows < s.rows then s.screen.take rows
      else s.screen).get? i = some (blankRow cols s.attributes) := by
    intro i hi1 hi2
    rw [if_pos (by omega)]
    rw [List.get?_append (by simp only [List.length_append, List.length_take,
      List.length_replicate]; omega)]
    rw [List.get?_append_right (by simp only [List.length_take]; omega)]
    simp only [List.length_take]
    rw [List.get?_eq_getElem?, List.getElem?_replicate, if_pos (by omega)]
  refine ⟨⟨hrows, hcols, ?_, by dsimp only; omega⟩, by dsimp only; omega, hsv, fun hn => ?_⟩
  · dsimp only
    rw [jsMapIdx_length]
    exact hscreen1len
  · dsimp only at hn
    obtain ⟨h1, h2, h3, h4⟩ := hcf hn
    refine ⟨by dsimp only; omega, ?_, ?_, ?_⟩
    · intro i row hi hrow
      dsimp only at hi hrow ⊢
      rw [get?_jsMapIdx] at hrow
      by_cases hmin : i < min rows s.rows
      · rw [hscreen1get i hmin] at hrow
        cases hq : s.screen.get? i with
        | none => rw [hq] at hrow; cases hrow
        | some orig =>
            rw [hq] at hrow
            simp only [Option.map_some', Option.some.injEq] at hrow
            rw [if_pos hmin] at hrow
            subst hrow
            exact resizeRow_bounds (h2 i orig (by omega) hq).1 (h2 i orig (by omega) hq).2
      · have hrep := hscreen1rep i (by omega) hi
        rw [hrep] at hrow
        simp only [Option.map_some', Option.some.injEq] at hrow
        rw [if_neg hmin] at hrow
        subst hrow
        rw [blankRow]
        simp
    · intro h0
      dsimp only at h0 ⊢
      have := h3 h0
      omega
    · intro hful
      dsimp only at hful ⊢
      omega

theorem inv_runCSICommand {s s' : TermState} (h : Inv s) {command : Char} {params : List Nat}
    (hstep : runCSICommand s command params = some s') : Inv s' := by
  rw [runCSICommand] at hstep
  by_cases h0 : command = 'A'
  · rw [if_pos h0] at hstep
    cases hstep; exact inv_cursorUp h _
  · rw [if_neg h0] at hstep
    by_cases h1 : command = 'B'
    · rw [if_pos h1] at hstep
      cases hstep; exact inv_cursorDown h _
    · rw [if_neg h1] at hstep
      by_cases h2 : command = 'C'
      · rw [if_pos h2] at hstep
        cases hstep; exact inv_cursorRight h _
      · rw [if_neg h2] at hstep
        by_cases h3 : command = 'D'
        · rw [if_pos h3] at hstep
          cases hstep; exact inv_cursorLeft h _
        · rw [if_neg h3] at hstep
          by_cases h4 : command = 'H'
          · rw [if_pos h4] at hstep
            cases hstep; exact inv_setCursorPosition h _ _
          · rw [if_neg h4] at hstep
            by_cases h5 : command = 'J'
            · rw [if_pos h5] at hstep
              exact inv_eraseDisplay h _ hstep
            · rw [if_neg h5] at hstep
              by_cases h6 : command = 'K'
              · rw [if_pos h6] at hstep
                exact inv_eraseLine h _ hstep
              · rw [if_neg h6] at hstep
                by_cases h7 : command = 'm'
                · rw [if_pos h7] at hstep
                  cases hstep; exact inv_setGraphicsRendition h _
                · rw [if_neg h7] at hstep
                  by_cases h8 : command = 'r'
                  · rw [if_pos h8] at hstep
                    cases hstep; exact inv_setScrollRegion h _ _
                  · rw [if_neg h8] at hstep
                    by_cases h9 : command = 's'
                    · rw [if_pos h9] at hstep
                      cases hstep; exact inv_saveCursor h
                    · rw [if_neg h9] at hstep
                      by_cases h10 : command = 'u'
                      · rw [if_pos h10] at hstep
                        cases hstep; exact inv_restoreCursor h
                      · rw [if_neg h10] at hstep
                        by_cases h11 : command = 'l'
                        · rw [if_pos h11] at hstep
                          cases hstep; exact inv_setMode h _ _
                        · rw [if_neg h11] at hstep
                          by_cases h12 : command = 'h'
                          · rw [if_pos h12] at hstep
                            cases hstep; exact inv_setMode h _ _
                          · rw [if_neg h12] at hstep
                            cases hstep
                            exact h

theorem inv_runSimpleEscape {s : TermState} (h : Inv s) (c : Char) :
    Inv (runSimpleEscape s c) := by
  rw [runSimpleEscape]
  split
  · exact inv_reverseIndex h
  · split
    · exact inv_index h
    · split
      · exact inv_nextLine h
      · split
        · exact inv_saveCursor h
        · split
          · exact inv_restoreCursor h
          · exact h

theorem inv_processCSISequence {s s' : TermState} (h : Inv s) {text : List Char} {j k : Nat}
    (hstep : processCSISequence s text j = (some s', k)) : Inv s' := by
  rw [processCSISequence] at hstep
  cases hq : text.get? (csiSpanEnd text j) with
  | none =>
      rw [hq] at hstep
      simp only [Prod.mk.injEq, Option.some.injEq] at hstep
      rw [← hstep.1]
      exact h
  | some command =>
      rw [hq] at hstep
      simp only [Prod.mk.injEq] at hstep
      exact inv_runCSICommand h hstep.1

theorem inv_processEscapeSequence {s s' : TermState} (h : Inv s) {text : List Char} {j k : Nat}
    (hstep : processEscapeSequence s text j = (some s', k)) : Inv s' := by
  rw [processEscapeSequence] at hstep
  cases hq : text.get? (j + 1) with
  | none =>
      rw [hq] at hstep
      simp only [Prod.mk.injEq, Option.some.injEq] at hstep
      rw [← hstep.1]
      exact h
  | some nextChar =>
      rw [hq] at hstep
      dsimp only at hstep
      by_cases hb : nextChar = '['
      · rw [if_pos hb] at hstep
        exact inv_processCSISequence h hstep
      · rw [if_neg hb] at hstep
        by_cases ho : nextChar = ']'
        · rw [if_pos ho] at hstep
          simp only [Prod.mk.injEq, Option.some.injEq] at hstep
          rw [← hstep.1]
          exact h
        · rw [if_neg ho] at hstep
          by_cases hp : nextChar = '('
          · rw [if_pos hp] at hstep
            simp only [Prod.mk.injEq, Option.some.injEq] at hstep
            rw [← hstep.1]
            exact h
          · rw [if_neg hp] at hstep
            simp only [Prod.mk.injEq, Option.some.injEq] at hstep
            rw [← hstep.1]
            exact inv_runSimpleEscape h nextChar

theorem inv_processOutputGo {text : List Char} :
    ∀ (fuel : Nat) {s s' : TermState} {i : Nat}, Inv s →
      processOutputGo s text i fuel = some s' → Inv s' := by
  intro fuel
  induction fuel with
  | zero =>
      intro s s' i h hstep
      rw [processOutputGo] at hstep
      cases hstep
      exact h
  | succ g ih =>
      intro s s' i h hstep
      rw [processOutputGo] at hstep
      cases hget : text.get? i with
      | none =>
          rw [hget] at hstep
          cases hstep
          exact h
      | some c =>
          rw [hget] at hstep
          dsimp only at hstep
          by_cases h1c : c = escCh
          · rw [if_pos h1c] at hstep
            cases hseq : processEscapeSequence s text i with
            | mk os j =>
                rw [hseq] at hstep
                cases os with
                | none => cases hstep
                | some s1 =>
                    exact ih (inv_processEscapeSequence h hseq) hstep
          · rw [if_neg h1c] at hstep
            by_cases h2c : c = '\r'
            · rw [if_pos h2c] at hstep
              exact ih (inv_carriageReturn h) hstep
            · rw [if_neg h2c] at hstep
              by_cases h3c : c = '\n'
              · rw [if_pos h3c] at hstep
                exact ih (inv_lineFeed h) hstep
              · rw [if_neg h3c] at hstep
                by_cases h4c : c = '\t'
                · rw [if_pos h4c] at hstep
                  exact ih (inv_tab h) hstep
                · rw [if_neg h4c] at hstep
                  by_cases h5c : c = bsCh
                  · rw [if_pos h5c] at hstep
                    exact ih (inv_backspace h) hstep
                  · rw [if_neg h5c] at hstep
                    by_cases h6c : 32 ≤ c.toNat
                    · rw [if_pos h6c] at hstep
                      cases hins : insertCharacter s c with
                      | none => rw [hins] at hstep; cases hstep
                      | some s1 =>
                          rw [hins] at hstep
                          exact ih (inv_insertCharacter h c hins) hstep
                    · rw [if_neg h6c] at hstep
                      exact ih h hstep

theorem inv_processOutput {s s' : TermState} (h : Inv s) {data : List Char}
    (hstep : processOutput s data = some s') : Inv s' :=
  inv_processOutputGo _ h hstep

theorem inv_addToReplayLog {s : TermState} (h : Inv s) (et : String) (d : List Char) :
    Inv (addToReplayLog s et d) := by
  obtain ⟨⟨hr, hc2, hl, hb⟩, hx, hsv, hcf⟩ := h
  rw [addToReplayLog]
  refine ⟨⟨hr, hc2, hl, hb⟩, hx, hsv, fun hn => ?_⟩
  obtain ⟨h1, h2, h3, h4⟩ := hcf hn
  exact ⟨h1, h2, h3, h4⟩

theorem inv_write {s s' : TermState} (h : Inv s) {data : List Char}
    (hstep : write s data = some s') : Inv s' := by
  rw [write] at hstep
  split at hstep
  · exact inv_processOutput (inv_addToReplayLog h _ _) hstep
  · exact inv_processOutput h hstep

theorem inv_applyOp {s s' : TermState} {op : TermOp} (h : Inv s) (hv : ValidOp op)
    (hstep : applyOp s op = some s') : Inv s' := by
  cases op with
  | write d => exact inv_write h hstep
  | resize r c =>
      rw [applyOp] at hstep
      cases hstep
      exact inv_resize h hv.1 hv.2

theorem inv_runOps : ∀ {ops : List TermOp} {s s' : TermState}, Inv s →
    (∀ op ∈ ops, ValidOp op) → runOps s ops = some s' → Inv s' := by
  intro ops
  induction ops with
  | nil =>
      intro s s' h _ hstep
      rw [runOps] at hstep
      simp only [List.foldlM_nil, Option.pure_def, Option.some.injEq] at hstep
      rw [← hstep]
      exact h
  | cons op rest ih =>
      intro s s' h hv hstep
      rw [runOps] at hstep
      simp only [List.foldlM_cons] at hstep
      cases h1 : applyOp s op with
      | none => rw [h1] at hstep; cases hstep
      | some s1 =>
          rw [h1] at hstep
          simp only [Option.bind_eq_bind, Option.some_bind] at hstep
          exact ih (inv_applyOp h (hv op (List.mem_cons_self _ _)) h1)
            (fun o ho => hv o (List.mem_cons_of_mem _ ho)) hstep

theorem inv_initialState : Inv initialState := by
  rw [initialState]
  refine ⟨⟨by norm_num, by norm_num, by simp, by norm_num⟩, by norm_num, ?_, fun _ => ?_⟩
  · intro c hc
    cases hc
  · refine ⟨by norm_num, ?_, fun _ => by norm_num, fun _ => by norm_num⟩
    intro i row hi hrow
    dsimp only at hi hrow ⊢
    rw [List.get?_eq_getElem?, List.getElem?_replicate] at hrow
    rw [if_pos (by omega)] at hrow
    cases hrow
    rw [blankRow]
    simp

/-- A state predicate preserved by every primitive command handler; such a
predicate is preserved by the whole byte-processing pipeline. -/
structure PreservedPred (P : TermState → Prop) : Prop where
  cr : ∀ s, P s → P { s with cursorX := 0 }
  lf : ∀ s, P s → P (lineFeed s)
  tabP : ∀ s, P s → P (tab s)
  bs : ∀ s, P s → P (backspace s)
  ins : ∀ s s' c, P s → insertCharacter s c = some s' → P s'
  cUp : ∀ s n, P s → P (cursorUp s n)
  cDown : ∀ s n, P s → P (cursorDown s n)
  cRight : ∀ s n, P s → P (cursorRight s n)
  cLeft : ∀ s n, P s → P (cursorLeft s n)
  setPos : ∀ s r c, P s → P (setCursorPosition s r c)
  eraseD : ∀ s s' m, P s → eraseDisplay s m = some s' → P s'
  eraseL : ∀ s s' m, P s → eraseLine s m = some s' → P s'
  sgr : ∀ s ps, P s → P (setGraphicsRendition s ps)
  region : ∀ s t b, P s → P (setScrollRegion s t b)
  save : ∀ s, P s → P (saveCursor s)
  restore : ∀ s, P s → P (restoreCursor s)
  mode : ∀ s ps b, P s → P (setMode s ps b)
  revIdx : ∀ s, P s → P (reverseIndex s)
  idx : ∀ s, P s → P (index s)
  next : ∀ s, P s → P (nextLine s)

theorem PreservedPred.runCSI {P : TermState → Prop} (hp : PreservedPred P)
    {s s' : TermState} {command : Char} {params : List Nat} (h : P s)
    (hstep : runCSICommand s command params = some s') : P s' := by
  rw [runCSICommand] at hstep
  by_cases h0 : command = 'A'
  · rw [if_pos h0] at hstep
    cases hstep; exact hp.cUp s _ h
  · rw [if_neg h0] at hstep
    by_cases h1 : command = 'B'
    · rw [if_pos h1] at hstep
      cases hstep; exact hp.cDown s _ h
    · rw [if_neg h1] at hstep
      by_cases h2 : command = 'C'
      · rw [if_pos h2] at hstep
        cases hstep; exact hp.cRight s _ h
      · rw [if_neg h2] at hstep
        by_cases h3 : command = 'D'
        · rw [if_pos h3] at hstep
          cases hstep; exact hp.cLeft s _ h
        · rw [if_neg h3] at hstep
          by_cases h4 : command = 'H'
          · rw [if_pos h4] at hstep
            cases hstep; exact hp.setPos s _ _ h
          · rw [if_neg h4] at hstep
            by_cases h5 : command = 'J'
            · rw [if_pos h5] at hstep
              exact hp.eraseD s s' _ h hstep
            · rw [if_neg h5] at hstep
              by_cases h6 : command = 'K'
              · rw [if_pos h6] at hstep
                exact hp.eraseL s s' _ h hstep
              · rw [if_neg h6] at hstep
                by_cases h7 : command = 'm'
                · rw [if_pos h7] at hstep
                  cases hstep; exact hp.sgr s _ h
                · rw [if_neg h7] at hstep
                  by_cases h8 : command = 'r'
                  · rw [if_pos h8] at hstep
                    cases hstep; exact hp.region s _ _ h
                  · rw [if_neg h8] at hstep
                    by_cases h9 : command = 's'
                    · rw [if_pos h9] at hstep
                      cases hstep; exact hp.save s h
                    · rw [if_neg h9] at hstep
                      by_cases h10 : command = 'u'
                      · rw [if_pos h10] at hstep
                        cases hstep; exact hp.restore s h
                      · rw [if_neg h10] at hstep
                        by_cases h11 : command = 'l'
                        · rw [if_pos h11] at hstep
                          cases hstep; exact hp.mode s _ _ h
                        · rw [if_neg h11] at hstep
                          by_cases h12 : command = 'h'
                          · rw [if_pos h12] at hstep
                            cases hstep; exact hp.mode s _ _ h
                          · rw [if_neg h12] at hstep
                            cases hstep; exact h

theorem PreservedPred.simpleEsc {P : TermState → Prop} (hp : PreservedPred P)
    {s : TermState} (c : Char) (h : P s) : P (runSimpleEscape s c) := by
  rw [runSimpleEscape]
  split
  · exact hp.revIdx s h
  · split
    · exact hp.idx s h
    · split
      · exact hp.next s h
      · split
        · exact hp.save s h
        · split
          · exact hp.restore s h
          · exact h

theorem PreservedPred.csiSeq {P : TermState → Prop} (hp : PreservedPred P)
    {s s' : TermState} {text : List Char} {j k : Nat} (h : P s)
    (hstep : processCSISequence s text j = (some s', k)) : P s' := by
  rw [processCSISequence] at hstep
  cases hq : text.get? (csiSpanEnd text j) with
  | none =>
      rw [hq] at hstep
      simp only [Prod.mk.injEq, Option.some.injEq] at hstep
      rw [← hstep.1]
      exact h
  | some command =>
      rw [hq] at hstep
      simp only [Prod.mk.injEq] at hstep
      exact hp.runCSI h hstep.1

theorem PreservedPred.escSeq {P : TermState → Prop} (hp : PreservedPred P)
    {s s' : TermState} {text : List Char} {j k : Nat} (h : P s)
    (hstep : processEscapeSequence s text j = (some s', k)) : P s' := by
  rw [processEscapeSequence] at hstep
  cases hq : text.get? (j + 1) with
  | none =>
      rw [hq] at hstep
      simp only [Prod.mk.injEq, Option.some.injEq] at hstep
      rw [← hstep.1]
      exact h
  | some nextChar =>
      rw [hq] at hstep
      dsimp only at hstep
      by_cases hb : nextChar = '['
      · rw [if_pos hb] at hstep
        exact hp.csiSeq h hstep
      · rw [if_neg hb] at hstep
        by_cases ho : nextChar = ']'
        · rw [if_pos ho] at hstep
          simp only [Prod.mk.injEq, Option.some.injEq] at hstep
          rw [← hstep.1]
          exact h
        · rw [if_neg ho] at hstep
          by_cases hpc : nextChar = '('
          · rw [if_pos hpc] at hstep
            simp only [Prod.mk.injEq, Option.some.injEq] at hstep
            rw [← hstep.1]
            exact h
          · rw [if_neg hpc] at hstep
            simp only [Prod.mk.injEq, Option.some.injEq] at hstep
            rw [← hstep.1]
            exact hp.simpleEsc nextChar h

theorem PreservedPred.outputGo {P : TermState → Prop} (hp : PreservedPred P)
    {text : List Char} :
    ∀ (fuel : Nat) {s s' : TermState} {i : Nat}, P s →
      processOutputGo s text i fuel = some s' → P s' := by
  intro fuel
  induction fuel with
  | zero =>
      intro s s' i h hstep
      rw [processOutputGo] at hstep
      cases hstep
      exact h
  | succ g ih =>
      intro s s' i h hstep
      rw [processOutputGo] at hstep
      cases hget : text.get? i with
      | none =>
          rw [hget] at hstep
          cases hstep
          exact h
      | some c =>
          rw [hget] at hstep
          dsimp only at hstep
          by_cases h1c : c = escCh
          · rw [if_pos h1c] at hstep
            cases hseq : processEscapeSequence s text i with
            | mk os j =>
                rw [hseq] at hstep
                cases os with
                | none => cases hstep
                | some s1 => exact ih (hp.escSeq h hseq) hstep
          · rw [if_neg h1c] at hstep
            by_cases h2c : c = '\r'
            · rw [if_pos h2c] at hstep
              exact ih (hp.cr s h) hstep
            · rw [if_neg h2c] at hstep
              by_cases h3c : c = '\n'
              · rw [if_pos h3c] at hstep
                exact ih (hp.lf s h) hstep
              · rw [if_neg h3c] at hstep
                by_cases h4c : c = '\t'
                · rw [if_pos h4c] at hstep
                  exact ih (hp.tabP s h) hstep
                · rw [if_neg h4c] at hstep
                  by_cases h5c : c = bsCh
                  · rw [if_pos h5c] at hstep
                    exact ih (hp.bs s h) hstep
                  · rw [if_neg h5c] at hstep
                    by_cases h6c : 32 ≤ c.toNat
                    · rw [if_pos h6c] at hstep
                      cases hins : insertCharacter s c with
                      | none => rw [hins] at hstep; cases hstep
                      | some s1 =>
                          rw [hins] at hstep
                          exact ih (hp.ins s s1 c h hins) hstep
                    · rw [if_neg h6c] at hstep
                      exact ih h hstep

theorem PreservedPred.output {P : TermState → Prop} (hp : PreservedPred P)
    {s s' : TermState} {data : List Char} (h : P s)
    (hstep : processOutput s data = some s') : P s' :=
  hp.outputGo _ h hstep

/-- The fields of the state that no byte-processing handler ever writes,
relative to a reference state. -/
def SameFrame (s t : TermState) : Prop :=
  t.rows = s.rows ∧ t.cols = s.cols ∧ t.wraparound = s.wraparound ∧
    t.sessionLog = s.sessionLog ∧ t.isReplaying = s.isReplaying ∧
    t.replayIndex = s.replayIndex ∧ t.replayData = s.replayData

theorem preserved_frame (s0 : TermState) : PreservedPred (SameFrame s0) := by
  constructor
  case cr => exact fun s h => h
  case lf =>
      intro s h
      rw [lineFeed]
      split
      · exact h
      · exact h
  case tabP => exact fun s h => h
  case bs =>
      intro s h
      rw [backspace]
      split
      · exact h
      · exact h
  case ins =>
      intro s s' c h hstep
      rw [insertCharacter] at hstep
      have hs1 : ∀ s1 : TermState, SameFrame s0 s1 →
          (match setCell s1.screen s1.cursorY s1.cursorX
              { char := c, attributes := s1.attributes } with
            | some sc => some { s1 with screen := sc, cursorX := s1.cursorX + 1 }
            | none => none) = some s' → SameFrame s0 s' := by
        intro s1 h1 hm
        cases hq : setCell s1.screen s1.cursorY s1.cursorX
            { char := c, attributes := s1.attributes } with
        | none => rw [hq] at hm; cases hm
        | some sc =>
            rw [hq] at hm
            cases hm
            exact h1
      refine hs1 _ ?_ hstep
      split
      · split
        · rw [lineFeed]
          split
          · exact h
          · exact h
        · exact h
      · exact h
  case cUp => exact fun s n h => h
  case cDown => exact fun s n h => h
  case cRight => exact fun s n h => h
  case cLeft => exact fun s n h => h
  case setPos => exact fun s r c h => h
  case eraseD =>
      intro s s' m h hstep
      rw [eraseDisplay] at hstep
      have hfold : ∀ (l : List Nat) (g : TermState → Nat → TermState)
          (hg : ∀ t a, SameFrame s0 t → SameFrame s0 (g t a)) (t : TermState),
          SameFrame s0 t → SameFrame s0 (l.foldl g t) := by
        intro l
        induction l with
        | nil => intro g hg t ht; exact ht
        | cons a rest ih =>
            intro g hg t ht
            rw [List.foldl_cons]
            exact ih g hg _ (hg t a ht)
      have heraseL : ∀ (t t' : TermState) (m2 : Nat), SameFrame s0 t →
          eraseLine t m2 = some t' → SameFrame s0 t' := by
        intro t t' m2 ht hstep2
        rw [eraseLine] at hstep2
        split at hstep2
        · simp only [Option.map_eq_map, Option.map_eq_some'] at hstep2
          obtain ⟨sc, _, hq⟩ := hstep2
          rw [← hq]
          exact ht
        · split at hstep2
          · simp only [Option.map_eq_map, Option.map_eq_some'] at hstep2
            obtain ⟨sc, _, hq⟩ := hstep2
            rw [← hq]
            exact ht
          · split at hstep2
            · cases hstep2
              exact ht
            · cases hstep2
              exact ht
      split at hstep
      · simp only [Option.map_eq_map, Option.map_eq_some'] at hstep
        obtain ⟨s1, he, hq⟩ := hstep
        rw [← hq]
        refine hfold _ _ ?_ s1 (heraseL s s1 0 h he)
        intro t a ht
        split
        · exact ht
        · exact ht
      · split at hstep
        · dsimp only at hstep
          exact heraseL _ s' 1
            (hfold (List.range (if s.cursorY ≤ 0 then 0 else s.cursorY.toNat))
              (fun acc (r : Nat) => clearRow acc (r : Int)) (fun t a ht => ht) s h) hstep
        · split at hstep
          · dsimp only at hstep
            cases hstep
            have hres := hfold (List.range s.rows)
              (fun acc (r : Nat) => clearRow acc (r : Int)) (fun t a ht => ht) s h
            exact hres
          · cases hstep
            exact h
  case eraseL =>
      intro s s' m h hstep
      rw [eraseLine] at hstep
      split at hstep
      · simp only [Option.map_eq_map, Option.map_eq_some'] at hstep
        obtain ⟨sc, _, hq⟩ := hstep
        rw [← hq]
        exact h
      · split at hstep
        · simp only [Option.map_eq_map, Option.map_eq_some'] at hstep
          obtain ⟨sc, _, hq⟩ := hstep
          rw [← hq]
          exact h
        · split at hstep
          · cases hstep
            exact h
          · cases hstep
            exact h
  case sgr => exact fun s ps h => h
  case region => exact fun s t b h => h
  case save => exact fun s h => h
  case restore =>
      intro s h
      rw [restoreCursor]
      cases s.savedCursor
      · exact h
      · exact h
  case mode =>
      intro s ps b h
      rw [setMode]
      induction ps generalizing s with
      | nil => exact h
      | cons p rest ih =>
          rw [List.foldl_cons]
          split
          · exact ih _ h
          · exact ih _ h
  case revIdx =>
      intro s h
      rw [reverseIndex]
      split
      · exact h
      · exact h
  case idx =>
      intro s h
      rw [index]
      split
      · exact h
      · exact h
  case next =>
      intro s h
      rw [nextLine, index]
      split
      · exact h
      · exact h

/-- `processOutput` never touches the dimensions, wraparound flag, session log
or replay bookkeeping. -/
theorem processOutput_frame {s s' : TermState} {data : List Char}
    (hstep : processOutput s data = some s') : SameFrame s s' :=
  (preserved_frame s).output ⟨rfl, rfl, rfl, rfl, rfl, rfl, rfl⟩ hstep

/-- The scrollback store is within its capacity. -/
def SbOk (s : TermState) : Prop :=
  s.scrollback.length ≤ maxScrollback

theorem sb_scrollUp {s : TermState} (h : SbOk s) : SbOk (scrollUp s) := by
  rw [SbOk] at h ⊢
  rw [scrollUp]
  dsimp only
  split
  · rw [List.length_drop]
    simp only [maxScrollback]
    omega
  · rename_i hcond
    omega

theorem sb_lineFeed {s : TermState} (h : SbOk s) : SbOk (lineFeed s) := by
  rw [lineFeed]
  split
  · exact sb_scrollUp h
  · exact h

theorem preserved_sb : PreservedPred SbOk := by
  constructor
  case cr => exact fun s h => h
  case lf => exact fun s h => sb_lineFeed h
  case tabP => exact fun s h => h
  case bs =>
      intro s h
      rw [backspace]
      split
      · exact h
      · exact h
  case ins =>
      intro s s' c h hstep
      rw [insertCharacter] at hstep
      have hs1 : ∀ s1 : TermState, SbOk s1 →
          (match setCell s1.screen s1.cursorY s1.cursorX
              { char := c, attributes := s1.attributes } with
            | some sc => some { s1 with screen := sc, cursorX := s1.cursorX + 1 }
            | none => none) = some s' → SbOk s' := by
        intro s1 h1 hm
        cases hq : setCell s1.screen s1.cursorY s1.cursorX
            { char := c, attributes := s1.attributes } with
        | none => rw [hq] at hm; cases hm
        | some sc =>
            rw [hq] at hm
            cases hm
            exact h1
      refine hs1 _ ?_ hstep
      split
      · split
        · exact sb_lineFeed h
        · exact h
      · exact h
  case cUp => exact fun s n h => h
  case cDown => exact fun s n h => h
  case cRight => exact fun s n h => h
  case cLeft => exact fun s n h => h
  case setPos => exact fun s r c h => h
  case eraseD =>
      intro s s' m h hstep
      rw [eraseDisplay] at hstep
      have hfold : ∀ (l : List Nat) (g : TermState → Nat → TermState)
          (hg : ∀ t a, SbOk t → SbOk (g t a)) (t : TermState),
          SbOk t → SbOk (l.foldl g t) := by
        intro l
        induction l with
        | nil => intro g hg t ht; exact ht
        | cons a rest ih =>
            intro g hg t ht
            rw [List.foldl_cons]
            exact ih g hg _ (hg t a ht)
      have heraseL : ∀ (t t' : TermState) (m2 : Nat), SbOk t →
          eraseLine t m2 = some t' → SbOk t' := by
        intro t t' m2 ht hstep2
        rw [eraseLine] at hstep2
        split at hstep2
        · simp only [Option.map_eq_map, Option.map_eq_some'] at hstep2
          obtain ⟨sc, _, hq⟩ := hstep2
          rw [← hq]
          exact ht
        · split at hstep2
          · simp only [Option.map_eq_map, Option.map_eq_some'] at hstep2
            obtain ⟨sc, _, hq⟩ := hstep2
            rw [← hq]
            exact ht
          · split at hstep2
            · cases hstep2
              exact ht
            · cases hstep2
              exact ht
      split at hstep
      · simp only [Option.map_eq_map, Option.map_eq_some'] at hstep
        obtain ⟨s1, he, hq⟩ := hstep
        rw [← hq]
        refine hfold _ _ ?_ s1 (heraseL s s1 0 h he)
        intro t a ht
        split
        · exact ht
        · exact ht
      · split at hstep
        · dsimp only at hstep
          exact heraseL _ s' 1
            (hfold (List.range (if s.cursorY ≤ 0 then 0 else s.cursorY.toNat))
              (fun acc (r : Nat) => clearRow acc (r : Int)) (fun t a ht => ht) s h) hstep
        · split at hstep
          · dsimp only at hstep
            cases hstep
            have hres := hfold (List.range s.rows)
              (fun acc (r : Nat) => clearRow acc (r : Int)) (fun t a ht => ht) s h
            exact hres
          · cases hstep
            exact h
  case eraseL =>
      intro s s' m h hstep
      rw [eraseLine] at hstep
      split at hstep
      · simp only [Option.map_eq_map, Option.map_eq_some'] at hstep
        obtain ⟨sc, _, hq⟩ := hstep
        rw [← hq]
        exact h
      · split at hstep
        · simp only [Option.map_eq_map, Option.map_eq_some'] at hstep
          obtain ⟨sc, _, hq⟩ := hstep
          rw [← hq]
          exact h
        · split at hstep
          · cases hstep
            exact h
          · cases hstep
            exact h
  case sgr => exact fun s ps h => h
  case region => exact fun s t b h => h
  case save => exact fun s h => h
  case restore =>
      intro s h
      rw [restoreCursor]
      cases s.savedCursor
      · exact h
      · exact h
  case mode =>
      intro s ps b h
      rw [setMode]
      induction ps generalizing s with
      | nil => exact h
      | cons p rest ih =>
          rw [List.foldl_cons]
          split
          · exact ih _ h
          · exact ih _ h
  case revIdx =>
      intro s h
      rw [reverseIndex]
      split
      · exact h
      · exact h
  case idx =>
      intro s h
      rw [index]
      split
      · exact sb_scrollUp h
      · exact h
  case next =>
      intro s h
      rw [nextLine, index]
      split
      · exact sb_scrollUp h
      · exact h

theorem sb_write {s s' : TermState} {data : List Char} (h : SbOk s)
    (hstep : write s data = some s') : SbOk s' := by
  rw [write] at hstep
  split at hstep
  · exact preserved_sb.output (P := SbOk) (s := addToReplayLog s ("output") data) h hstep
  · exact preserved_sb.output (P := SbOk) h hstep

/-- Run a sequence of `write` calls. -/
def runWrites (s : TermState) (ws : List (List Char)) : Option TermState :=
  ws.foldlM write s

theorem sb_runWrites : ∀ {ws : List (List Char)} {s s' : TermState}, SbOk s →
    runWrites s ws = some s' → SbOk s' := by
  intro ws
  induction ws with
  | nil =>
      intro s s' h hstep
      rw [runWrites] at hstep
      simp only [List.foldlM_nil, Option.pure_def, Option.some.injEq] at hstep
      rw [← hstep]
      exact h
  | cons w rest ih =>
      intro s s' h hstep
      rw [runWrites] at hstep
      simp only [List.foldlM_cons] at hstep
      cases h1 : write s w with
      | none => rw [h1] at hstep; cases hstep
      | some s1 =>
          rw [h1] at hstep
          simp only [Option.bind_eq_bind, Option.some_bind] at hstep
          exact ih (sb_write h h1) hstep

/-- The character-level content of the screen (attributes stripped). -/
def charMatrix (screen : List (List Cell)) : List (List Char) :=
  screen.map (List.map Cell.char)

/-- The character-level part of the state that drives the evolution of
`getScreenText` under `write`: everything except attributes, scrollback,
session log, replay bookkeeping and the (never-read) mode flag. -/
structure Core where
  cursorX : Int
  cursorY : Int
  rows : Nat
  cols : Nat
  scrollTop : Nat
  scrollBottom : Nat
  wraparound : Bool
  saved : Option (Int × Int)
  chars : List (List Char)
deriving DecidableEq

/-- Project a terminal state to its character-level core. -/
def proj (s : TermState) : Core :=
  { cursorX := s.cursorX, cursorY := s.cursorY, rows := s.rows, cols := s.cols,
    scrollTop := s.scrollTop, scrollBottom := s.scrollBottom, wraparound := s.wraparound,
    saved := s.savedCursor.map (fun c => (c.x, c.y)),
    chars := charMatrix s.screen }

theorem charMatrix_length (screen : List (List Cell)) :
    (charMatrix screen).length = screen.length := by
  rw [charMatrix, List.length_map]

theorem charMatrix_get? (screen : List (List Cell)) (i : Nat) :
    (charMatrix screen).get? i = (screen.get? i).map (List.map Cell.char) := by
  rw [charMatrix, List.get?_map]

theorem charMatrix_getD (screen : List (List Cell)) (i : Nat) :
    (charMatrix screen).getD i [] = (screen.getD i []).map Cell.char := by
  rw [List.getD_eq_getElem?_getD, List.getD_eq_getElem?_getD, ← List.get?_eq_getElem?,
    ← List.get?_eq_getElem?, charMatrix_get?]
  cases screen.get? i with
  | none => rfl
  | some r => rfl

theorem charMatrix_set (screen : List (List Cell)) (i : Nat) (r : List Cell) :
    charMatrix (screen.set i r) = (charMatrix screen).set i (r.map Cell.char) := by
  rw [charMatrix, charMatrix, List.map_set]

theorem charMatrix_append (a b : List (List Cell)) :
    charMatrix (a ++ b) = charMatrix a ++ charMatrix b := by
  rw [charMatrix, charMatrix, charMatrix, List.map_append]

theorem charMatrix_replicate (n : Nat) (r : List Cell) :
    charMatrix (List.replicate n r) = List.replicate n (r.map Cell.char) := by
  rw [charMatrix, List.map_replicate]

theorem charMatrix_drop (screen : List (List Cell)) (n : Nat) :
    charMatrix (screen.drop n) = (charMatrix screen).drop n := by
  rw [charMatrix, charMatrix, List.map_drop]

theorem map_char_blankRow (cols : Nat) (a : Attributes) :
    (blankRow cols a).map Cell.char = List.replicate cols ' ' := by
  rw [blankRow, List.map_replicate]

theorem charMatrix_mapIdxFrom (f : Nat → List Cell → List Cell)
    (g : Nat → List Char → List Char)
    (hfg : ∀ i r, (f i r).map Cell.char = g i (r.map Cell.char)) :
    ∀ (k : Nat) (l : List (List Cell)),
      charMatrix (mapIdxFrom f k l) = mapIdxFrom g k (charMatrix l) := by
  intro k l
  induction l generalizing k with
  | nil => rfl
  | cons a as ih =>
      rw [mapIdxFrom, charMatrix, List.map_cons, ← charMatrix, ih (k + 1)]
      rw [show charMatrix (a :: as) = (a.map Cell.char) :: charMatrix as from rfl]
      rw [mapIdxFrom, hfg]

theorem charMatrix_jsMapIdx (f : Nat → List Cell → List Cell)
    (g : Nat → List Char → List Char)
    (hfg : ∀ i r, (f i r).map Cell.char = g i (r.map Cell.char)) (l : List (List Cell)) :
    charMatrix (jsMapIdx f l) = jsMapIdx g (charMatrix l) :=
  charMatrix_mapIdxFrom f g hfg 0 l

/-- `rowSet` at the character level. -/
def rowSetChars (row : List Char) (x : Int) (c : Char) : List Char :=
  if x < 0 then row
  else
    let i := x.toNat
    if i < row.length then row.set i c
    else row ++ List.replicate (i - row.length) ' ' ++ [c]

theorem map_char_rowSet (row : List Cell) (x : Int) (c : Cell) :
    (rowSet row x c).map Cell.char = rowSetChars (row.map Cell.char) x c.char := by
  rw [rowSet, rowSetChars]
  by_cases hx : x < 0
  · rw [if_pos hx, if_pos hx]
  · rw [if_neg hx, if_neg hx]
    simp only [List.length_map]
    by_cases hlt : x.toNat < row.length
    · rw [if_pos hlt, if_pos hlt, List.map_set]
    · rw [if_neg hlt, if_neg hlt]
      simp [List.map_replicate]

/-- `clearRowScreen` at the character level. -/
def clearRowChars (chars : List (List Char)) (r : Int) (blank : List Char) :
    List (List Char) :=
  if r < 0 then chars
  else
    let i := r.toNat
    if i < chars.length then chars.set i blank
    else chars ++ List.replicate (i - chars.length) ([] : List Char) ++ [blank]

theorem charMatrix_clearRowScreen (screen : List (List Cell)) (r : Int) (blank : List Cell) :
    charMatrix (clearRowScreen screen r blank) =
      clearRowChars (charMatrix screen) r (blank.map Cell.char) := by
  rw [clearRowScreen, clearRowChars]
  by_cases hr : r < 0
  · rw [if_pos hr, if_pos hr]
  · rw [if_neg hr, if_neg hr]
    rw [charMatrix_length]
    by_cases hlt : r.toNat < screen.length
    · rw [if_pos hlt, if_pos hlt, charMatrix_set]
    · rw [if_neg hlt, if_neg hlt, charMatrix_append, charMatrix_append,
        charMatrix_replicate]
      rfl

/-- `setCell` at the character level. -/
def setCellChars (chars : List (List Char)) (y : Int) (x : Int) (c : Char) :
    Option (List (List Char)) :=
  if 0 ≤ y ∧ y.toNat < chars.length then
    let row := chars.getD y.toNat []
    if row.isEmpty then none
    else some (chars.set y.toNat (rowSetChars row x c))
  else none

theorem charMatrix_setCell (screen : List (List Cell)) (y x : Int) (c : Cell) :
    (setCell screen y x c).map charMatrix =
      setCellChars (charMatrix screen) y x c.char := by
  rw [setCell, setCellChars, charMatrix_length]
  by_cases hy : 0 ≤ y ∧ y.toNat < screen.length
  · rw [if_pos hy, if_pos hy]
    dsimp only
    rw [charMatrix_getD]
    have hemp : ((screen.getD y.toNat []).map Cell.char).isEmpty
        = (screen.getD y.toNat []).isEmpty := by
      cases screen.getD y.toNat [] with
      | nil => rfl
      | cons a as => rfl
    rw [hemp]
    by_cases he : (screen.getD y.toNat []).isEmpty
    · rw [if_pos he, if_pos he]
      rfl
    · simp only [he, Bool.false_eq_true, if_false, Option.map_some']
      rw [charMatrix_set, map_char_rowSet]
  · rw [if_neg hy, if_neg hy]
    rfl

theorem proj_fields {s t : TermState} (h : proj s = proj t) :
    s.cursorX = t.cursorX ∧ s.cursorY = t.cursorY ∧ s.rows = t.rows ∧ s.cols = t.cols ∧
      s.scrollTop = t.scrollTop ∧ s.scrollBottom = t.scrollBottom ∧
      s.wraparound = t.wraparound ∧
      s.savedCursor.map (fun c => (c.x, c.y)) = t.savedCursor.map (fun c => (c.x, c.y)) ∧
      charMatrix s.screen = charMatrix t.screen :=
  ⟨congrArg Core.cursorX h, congrArg Core.cursorY h, congrArg Core.rows h,
    congrArg Core.cols h, congrArg Core.scrollTop h, congrArg Core.scrollBottom h,
    congrArg Core.wraparound h, congrArg Core.saved h, congrArg Core.chars h⟩

theorem proj_intro {s t : TermState} (h1 : s.cursorX = t.cursorX) (h2 : s.cursorY = t.cursorY)
    (h3 : s.rows = t.rows) (h4 : s.cols = t.cols) (h5 : s.scrollTop = t.scrollTop)
    (h6 : s.scrollBottom = t.scrollBottom) (h7 : s.wraparound = t.wraparound)
    (h8 : s.savedCursor.map (fun c => (c.x, c.y)) = t.savedCursor.map (fun c => (c.x, c.y)))
    (h9 : charMatrix s.screen = charMatrix t.screen) : proj s = proj t := by
  simp only [proj, Core.mk.injEq]
  exact ⟨h1, h2, h3, h4, h5, h6, h7, h8, h9⟩

theorem proj_sgr (s : TermState) (ps : List Nat) :
    proj (setGraphicsRendition s ps) = proj s := rfl

theorem proj_setMode (s : TermState) (ps : List Nat) (b : Bool) :
    proj (setMode s ps b) = proj s := by
  rw [setMode]
  induction ps generalizing s with
  | nil => rfl
  | cons p rest ih =>
      rw [List.foldl_cons]
      by_cases hp : p = 1
      · rw [if_pos hp]
        exact ih _
      · rw [if_neg hp]
        exact ih _

theorem proj_addToReplayLog (s : TermState) (et : String) (d : List Char) :
    proj (addToReplayLog s et d) = proj s := rfl

theorem scrollUp_chars (s : TermState) :
    charMatrix (scrollUp s).screen =
      jsMapIdx (fun i rc =>
        if s.scrollTop ≤ i ∧ i < s.scrollBottom then (charMatrix s.screen).getD (i + 1) []
        else if i = s.scrollBottom then List.replicate s.cols ' '
        else rc) (charMatrix s.screen) := by
  refine charMatrix_jsMapIdx _ _ ?_ s.screen
  intro i r
  by_cases h1 : s.scrollTop ≤ i ∧ i < s.scrollBottom
  · rw [if_pos h1, if_pos h1, charMatrix_getD]
  · rw [if_neg h1, if_neg h1]
    by_cases h2 : i = s.scrollBottom
    · rw [if_pos h2, if_pos h2, map_char_blankRow]
    · rw [if_neg h2, if_neg h2]

theorem scrollUp_congr {s t : TermState} (h : proj s = proj t) :
    proj (scrollUp s) = proj (scrollUp t) := by
  obtain ⟨h1, h2, h3, h4, h5, h6, h7, h8, h9⟩ := proj_fields h
  refine proj_intro h1 h2 h3 h4 h5 h6 h7 h8 ?_
  rw [scrollUp_chars, scrollUp_chars, h4, h5, h6, h9]

theorem lineFeed_congr {s t : TermState} (h : proj s = proj t) :
    proj (lineFeed s) = proj (lineFeed t) := by
  obtain ⟨h1, h2, h3, h4, h5, h6, h7, h8, h9⟩ := proj_fields h
  rw [lineFeed, lineFeed]
  by_cases hc : s.cursorY = (s.scrollBottom : Int)
  · rw [if_pos hc, if_pos (show t.cursorY = (t.scrollBottom : Int) from by
      rw [← h2, ← h6]; exact hc)]
    exact scrollUp_congr h
  · rw [if_neg hc, if_neg (show ¬ t.cursorY = (t.scrollBottom : Int) from by
      rw [← h2, ← h6]; exact hc)]
    exact proj_intro h1 (by dsimp only; rw [h2]) h3 h4 h5 h6 h7 h8 h9

theorem clearRow_congr {s t : TermState} (h : proj s = proj t) (r : Int) :
    proj (clearRow s r) = proj (clearRow t r) := by
  obtain ⟨h1, h2, h3, h4, h5, h6, h7, h8, h9⟩ := proj_fields h
  refine proj_intro h1 h2 h3 h4 h5 h6 h7 h8 ?_
  show charMatrix (clearRowScreen s.screen r (blankRow s.cols s.attributes)) =
    charMatrix (clearRowScreen t.screen r (blankRow t.cols t.attributes))
  rw [charMatrix_clearRowScreen, charMatrix_clearRowScreen, map_char_blankRow,
    map_char_blankRow, h4, h9]

theorem scrollDown_congr {s t : TermState} (h : proj s = proj t) :
    proj (scrollDown s) = proj (scrollDown t) := by
  obtain ⟨h1, h2, h3, h4, h5, h6, h7, h8, h9⟩ := proj_fields h
  have hshift : ∀ u : TermState,
      charMatrix (jsMapIdx (fun i r =>
        if u.scrollTop < i ∧ i ≤ u.scrollBottom then u.screen.getD (i - 1) [] else r)
        u.screen) =
      jsMapIdx (fun i rc =>
        if u.scrollTop < i ∧ i ≤ u.scrollBottom then (charMatrix u.screen).getD (i - 1) []
        else rc) (charMatrix u.screen) := by
    intro u
    refine charMatrix_jsMapIdx _ _ ?_ u.screen
    intro i r
    by_cases hc : u.scrollTop < i ∧ i ≤ u.scrollBottom
    · rw [if_pos hc, if_pos hc, charMatrix_getD]
    · rw [if_neg hc, if_neg hc]
  rw [scrollDown, scrollDown]
  have hST : proj { s with screen := (jsMapIdx (fun i r =>
        if s.scrollTop < i ∧ i ≤ s.scrollBottom then s.screen.getD (i - 1) [] else r)
        s.screen) } =
      proj { t with screen := (jsMapIdx (fun i r =>
        if t.scrollTop < i ∧ i ≤ t.scrollBottom then t.screen.getD (i - 1) [] else r)
        t.screen) } := by
    refine proj_intro h1 h2 h3 h4 h5 h6 h7 h8 ?_
    dsimp only
    rw [hshift, hshift, h5, h6, h9]
  refine (clearRow_congr hST ((s.scrollTop : Int))).trans ?_
  rw [h5]

theorem index_congr {s t : TermState} (h : proj s = proj t) :
    proj (index s) = proj (index t) := by
  obtain ⟨h1, h2, h3, h4, h5, h6, h7, h8, h9⟩ := proj_fields h
  rw [index, index]
  by_cases hc : s.cursorY = (s.scrollBottom : Int)
  · rw [if_pos hc, if_pos (show t.cursorY = (t.scrollBottom : Int) from by
      rw [← h2, ← h6]; exact hc)]
    exact scrollUp_congr h
  · rw [if_neg hc, if_neg (show ¬ t.cursorY = (t.scrollBottom : Int) from by
      rw [← h2, ← h6]; exact hc)]
    exact proj_intro h1 (by dsimp only; rw [h2]) h3 h4 h5 h6 h7 h8 h9

theorem reverseIndex_congr {s t : TermState} (h : proj s = proj t) :
    proj (reverseIndex s) = proj (reverseIndex t) := by
  obtain ⟨h1, h2, h3, h4, h5, h6, h7, h8, h9⟩ := proj_fields h
  rw [reverseIndex, reverseIndex]
  by_cases hc : s.cursorY = (s.scrollTop : Int)
  · rw [if_pos hc, if_pos (show t.cursorY = (t.scrollTop : Int) from by
      rw [← h2, ← h5]; exact hc)]
    exact scrollDown_congr h
  · rw [if_neg hc, if_neg (show ¬ t.cursorY = (t.scrollTop : Int) from by
      rw [← h2, ← h5]; exact hc)]
    exact proj_intro h1 (by dsimp only; rw [h2]) h3 h4 h5 h6 h7 h8 h9

theorem nextLine_congr {s t : TermState} (h : proj s = proj t) :
    proj (nextLine s) = proj (nextLine t) := by
  rw [nextLine, nextLine]
  refine index_congr ?_
  obtain ⟨h1, h2, h3, h4, h5, h6, h7, h8, h9⟩ := proj_fields h
  exact proj_intro rfl h2 h3 h4 h5 h6 h7 h8 h9

theorem restoreCursor_congr {s t : TermState} (h : proj s = proj t) :
    proj (restoreCursor s) = proj (restoreCursor t) := by
  obtain ⟨h1, h2, h3, h4, h5, h6, h7, h8, h9⟩ := proj_fields h
  rw [restoreCursor, restoreCursor]
  cases hs1 : s.savedCursor with
  | none =>
      cases ht1 : t.savedCursor with
      | none => exact h
      | some c2 =>
          rw [hs1, ht1] at h8
          cases h8
  | some c1 =>
      cases ht1 : t.savedCursor with
      | none =>
          rw [hs1, ht1] at h8
          cases h8
      | some c2 =>
          rw [hs1, ht1] at h8
          simp only [Option.map_some', Option.some.injEq, Prod.mk.injEq] at h8
          refine proj_intro h8.1 h8.2 h3 h4 h5 h6 h7 ?_ h9
          dsimp only
          simp only [Option.map_some', Option.some.injEq, Prod.mk.injEq]
          exact ⟨h8.1, h8.2⟩

theorem crState_congr {s t : TermState} (h : proj s = proj t) :
    proj { s with cursorX := 0 } = proj { t with cursorX := 0 } := by
  obtain ⟨h1, h2, h3, h4, h5, h6, h7, h8, h9⟩ := proj_fields h
  exact proj_intro rfl h2 h3 h4 h5 h6 h7 h8 h9

theorem cursorUp_congr {s t : TermState} (h : proj s = proj t) (n : Nat) :
    proj (cursorUp s n) = proj (cursorUp t n) := by
  obtain ⟨h1, h2, h3, h4, h5, h6, h7, h8, h9⟩ := proj_fields h
  rw [cursorUp, cursorUp]
  exact proj_intro h1 (by dsimp only; rw [h2, h5]) h3 h4 h5 h6 h7 h8 h9

theorem cursorDown_congr {s t : TermState} (h : proj s = proj t) (n : Nat) :
    proj (cursorDown s n) = proj (cursorDown t n) := by
  obtain ⟨h1, h2, h3, h4, h5, h6, h7, h8, h9⟩ := proj_fields h
  rw [cursorDown, cursorDown]
  exact proj_intro h1 (by dsimp only; rw [h2, h6]) h3 h4 h5 h6 h7 h8 h9

theorem cursorRight_congr {s t : TermState} (h : proj s = proj t) (n : Nat) :
    proj (cursorRight s n) = proj (cursorRight t n) := by
  obtain ⟨h1, h2, h3, h4, h5, h6, h7, h8, h9⟩ := proj_fields h
  rw [cursorRight, cursorRight]
  exact proj_intro (by dsimp only; rw [h1, h4]) h2 h3 h4 h5 h6 h7 h8 h9

theorem cursorLeft_congr {s t : TermState} (h : proj s = proj t) (n : Nat) :
    proj (cursorLeft s n) = proj (cursorLeft t n) := by
  obtain ⟨h1, h2, h3, h4, h5, h6, h7, h8, h9⟩ := proj_fields h
  rw [cursorLeft, cursorLeft]
  exact proj_intro (by dsimp only; rw [h1]) h2 h3 h4 h5 h6 h7 h8 h9

theorem setCursorPosition_congr {s t : TermState} (h : proj s = proj t) (r c : Nat) :
    proj (setCursorPosition s r c) = proj (setCursorPosition t r c) := by
  obtain ⟨h1, h2, h3, h4, h5, h6, h7, h8, h9⟩ := proj_fields h
  rw [setCursorPosition, setCursorPosition]
  exact proj_intro (by dsimp only; rw [h4]) (by dsimp only; rw [h3]) h3 h4 h5 h6 h7 h8 h9

theorem setScrollRegion_congr {s t : TermState} (h : proj s = proj t) (top bottom : Nat) :
    proj (setScrollRegion s top bottom) = proj (setScrollRegion t top bottom) := by
  obtain ⟨h1, h2, h3, h4, h5, h6, h7, h8, h9⟩ := proj_fields h
  rw [setScrollRegion, setScrollRegion]
  refine setCursorPosition_congr ?_ 1 1
  exact proj_intro h1 h2 h3 h4 rfl (by dsimp only; rw [h3]) h7 h8 h9

theorem tab_congr {s t : TermState} (h : proj s = proj t) :
    proj (tab s) = proj (tab t) := by
  obtain ⟨h1, h2, h3, h4, h5, h6, h7, h8, h9⟩ := proj_fields h
  rw [tab, tab]
  exact proj_intro (by dsimp only; rw [h1, h4]) h2 h3 h4 h5 h6 h7 h8 h9

theorem backspace_congr {s t : TermState} (h : proj s = proj t) :
    proj (backspace s) = proj (backspace t) := by
  obtain ⟨h1, h2, h3, h4, h5, h6, h7, h8, h9⟩ := proj_fields h
  rw [backspace, backspace]
  by_cases hc : 0 < s.cursorX
  · rw [if_pos hc, if_pos (show 0 < t.cursorX from by rw [← h1]; exact hc)]
    exact proj_intro (by dsimp only; rw [h1]) h2 h3 h4 h5 h6 h7 h8 h9
  · rw [if_neg hc, if_neg (show ¬ 0 < t.cursorX from by rw [← h1]; exact hc)]
    exact h

theorem saveCursor_congr {s t : TermState} (h : proj s = proj t) :
    proj (saveCursor s) = proj (saveCursor t) := by
  obtain ⟨h1, h2, h3, h4, h5, h6, h7, h8, h9⟩ := proj_fields h
  rw [saveCursor, saveCursor]
  refine proj_intro h1 h2 h3 h4 h5 h6 h7 ?_ h9
  dsimp only
  simp only [Option.map_some', Option.some.injEq, Prod.mk.injEq]
  exact ⟨h1, h2⟩

theorem setCell_congr {sc tc : List (List Cell)} {y x : Int} {c c' : Cell}
    (h : charMatrix sc = charMatrix tc) (hc : c.char = c'.char) :
    (setCell sc y x c).map charMatrix = (setCell tc y x c').map charMatrix := by
  rw [charMatrix_setCell, charMatrix_setCell, h, hc]

theorem writeCells_congr {y : Int} {c c' : Cell} (hc : c.char = c'.char) :
    ∀ {xs : List Nat} {sc tc : List (List Cell)},
      charMatrix sc = charMatrix tc →
      (writeCells sc y xs c).map charMatrix = (writeCells tc y xs c').map charMatrix := by
  intro xs
  induction xs with
  | nil =>
      intro sc tc h
      rw [writeCells, writeCells]
      simp only [List.foldlM_nil, Option.pure_def, Option.map_some']
      rw [h]
  | cons x rest ih =>
      intro sc tc h
      rw [writeCells, writeCells]
      simp only [List.foldlM_cons]
      have hstep := setCell_congr (y := y) (x := (x : Int)) h hc
      cases hq1 : setCell sc y (x : Int) c with
      | none =>
          rw [hq1] at hstep
          cases hq2 : setCell tc y (x : Int) c' with
          | none => rfl
          | some b =>
              rw [hq2] at hstep
              simp at hstep
      | some a =>
          rw [hq1] at hstep
          cases hq2 : setCell tc y (x : Int) c' with
          | none =>
              rw [hq2] at hstep
              simp at hstep
          | some b =>
              rw [hq2] at hstep
              simp only [Option.map_some', Option.some.injEq] at hstep
              simp only [Option.bind_eq_bind, Option.some_bind]
              exact ih hstep

theorem insertWrite_congr {s1 t1 : TermState} (h : proj s1 = proj t1) (c : Char) :
    (match setCell s1.screen s1.cursorY s1.cursorX
        { char := c, attributes := s1.attributes } with
      | some sc => some { s1 with screen := sc, cursorX := s1.cursorX + 1 }
      | none => none).map proj =
    (match setCell t1.screen t1.cursorY t1.cursorX
        { char := c, attributes := t1.attributes } with
      | some sc => some { t1 with screen := sc, cursorX := t1.cursorX + 1 }
      | none => none).map proj := by
  obtain ⟨h1, h2, h3, h4, h5, h6, h7, h8, h9⟩ := proj_fields h
  rw [← h1, ← h2]
  have hset : (setCell s1.screen s1.cursorY s1.cursorX
        { char := c, attributes := s1.attributes }).map charMatrix =
      (setCell t1.screen s1.cursorY s1.cursorX
        { char := c, attributes := t1.attributes }).map charMatrix :=
    setCell_congr h9 rfl
  cases hq1 : setCell s1.screen s1.cursorY s1.cursorX
      { char := c, attributes := s1.attributes } with
  | none =>
      rw [hq1] at hset
      cases hq2 : setCell t1.screen s1.cursorY s1.cursorX
          { char := c, attributes := t1.attributes } with
      | none => rfl
      | some b =>
          rw [hq2] at hset
          simp at hset
  | some a =>
      rw [hq1] at hset
      cases hq2 : setCell t1.screen s1.cursorY s1.cursorX
          { char := c, attributes := t1.attributes } with
      | none =>
          rw [hq2] at hset
          simp at hset
      | some b =>
          rw [hq2] at hset
          simp only [Option.map_some', Option.some.injEq] at hset
          simp only [Option.map_some', Option.some.injEq]
          exact proj_intro rfl rfl h3 h4 h5 h6 h7 h8 hset

theorem insertCharacter_congr {s t : TermState} (h : proj s = proj t) (c : Char) :
    (insertCharacter s c).map proj = (insertCharacter t c).map proj := by
  obtain ⟨h1, h2, h3, h4, h5, h6, h7, h8, h9⟩ := proj_fields h
  rw [insertCharacter, insertCharacter]
  refine insertWrite_congr ?_ c
  by_cases hov : (s.cols : Int) ≤ s.cursorX
  · rw [if_pos hov, if_pos (show (t.cols : Int) ≤ t.cursorX from by rw [← h1, ← h4]; exact hov)]
    by_cases hw : s.wraparound
    · rw [if_pos hw, if_pos (show t.wraparound = true from by rw [← h7]; exact hw)]
      exact lineFeed_congr (crState_congr h)
    · rw [if_neg hw, if_neg (show ¬ t.wraparound = true from by rw [← h7]; exact hw)]
      exact proj_intro (by dsimp only; rw [h4]) h2 h3 h4 h5 h6 h7 h8 h9
  · rw [if_neg hov, if_neg (show ¬ (t.cols : Int) ≤ t.cursorX from by rw [← h1, ← h4]; exact hov)]
    exact h

theorem eraseWrite_congr {s t : TermState} (h : proj s = proj t) {xs xs' : List Nat}
    {y y' : Int} (hxs : xs = xs') (hy : y = y') :
    ((writeCells s.screen y xs { char := ' ', attributes := s.attributes }).map
      (fun sc => { s with screen := sc })).map proj =
    ((writeCells t.screen y' xs' { char := ' ', attributes := t.attributes }).map
      (fun sc => { t with screen := sc })).map proj := by
  subst hxs
  subst hy
  obtain ⟨h1, h2, h3, h4, h5, h6, h7, h8, h9⟩ := proj_fields h
  have hw := @writeCells_congr y { char := ' ', attributes := s.attributes }
    { char := ' ', attributes := t.attributes } rfl xs s.screen t.screen h9
  cases hq1 : writeCells s.screen y xs { char := ' ', attributes := s.attributes } with
  | none =>
      rw [hq1] at hw
      cases hq2 : writeCells t.screen y xs { char := ' ', attributes := t.attributes } with
      | none => rfl
      | some b =>
          rw [hq2] at hw
          simp at hw
  | some a =>
      rw [hq1] at hw
      cases hq2 : writeCells t.screen y xs { char := ' ', attributes := t.attributes } with
      | none =>
          rw [hq2] at hw
          simp at hw
      | some b =>
          rw [hq2] at hw
          simp only [Option.map_some', Option.some.injEq] at hw
          simp only [Option.map_some', Option.some.injEq]
          exact proj_intro h1 h2 h3 h4 h5 h6 h7 h8 hw

theorem eraseLine_congr {s t : TermState} (h : proj s = proj t) (m : Nat) :
    (eraseLine s m).map proj = (eraseLine t m).map proj := by
  obtain ⟨h1, h2, h3, h4, h5, h6, h7, h8, h9⟩ := proj_fields h
  rw [eraseLine, eraseLine]
  dsimp only
  by_cases hm0 : m = 0
  · rw [if_pos hm0, if_pos hm0]
    exact eraseWrite_congr h (by rw [h4, h1]) h2
  · rw [if_neg hm0, if_neg hm0]
    by_cases hm1 : m = 1
    · rw [if_pos hm1, if_pos hm1]
      exact eraseWrite_congr h (by rw [h1]) h2
    · rw [if_neg hm1, if_neg hm1]
      by_cases hm2 : m = 2
      · rw [if_pos hm2, if_pos hm2]
        simp only [Option.map_some', Option.some.injEq]
        exact (clearRow_congr h s.cursorY).trans (by rw [h2])
      · rw [if_neg hm2, if_neg hm2]
        simp only [Option.map_some', Option.some.injEq]
        exact h

theorem foldClear_congr {g g' : TermState → Nat → TermState}
    (hg : ∀ a b x, proj a = proj b → proj (g a x) = proj (g' b x)) :
    ∀ (l : List Nat) {a b : TermState}, proj a = proj b →
      proj (l.foldl g a) = proj (l.foldl g' b) := by
  intro l
  induction l with
  | nil => intro a b hab; exact hab
  | cons x rest ih =>
      intro a b hab
      rw [List.foldl_cons, List.foldl_cons]
      exact ih (hg a b x hab)

theorem eraseDisplay_congr {s t : TermState} (h : proj s = proj t) (m : Nat) :
    (eraseDisplay s m).map proj = (eraseDisplay t m).map proj := by
  obtain ⟨h1, h2, h3, h4, h5, h6, h7, h8, h9⟩ := proj_fields h
  rw [eraseDisplay, eraseDisplay]
  by_cases hm0 : m = 0
  · rw [if_pos hm0, if_pos hm0]
    have hel := eraseLine_congr h 0
    cases hq1 : eraseLine s 0 with
    | none =>
        rw [hq1] at hel
        cases hq2 : eraseLine t 0 with
        | none => rfl
        | some b =>
            rw [hq2] at hel
            simp at hel
    | some a =>
        rw [hq1] at hel
        cases hq2 : eraseLine t 0 with
        | none =>
            rw [hq2] at hel
            simp at hel
        | some b =>
            rw [hq2] at hel
            simp only [Option.map_some', Option.some.injEq] at hel
            simp only [Option.map_some', Option.some.injEq]
            have hrows : a.rows = b.rows := congrArg Core.rows hel
            rw [← h2, hrows]
            refine foldClear_congr ?_ (List.range b.rows) hel
            intro a2 b2 x hab
            by_cases hcond : s.cursorY + 1 ≤ (x : Int)
            · rw [if_pos hcond, if_pos hcond]
              exact clearRow_congr hab _
            · rw [if_neg hcond, if_neg hcond]
              exact hab
  · rw [if_neg hm0, if_neg hm0]
    by_cases hm1 : m = 1
    · rw [if_pos hm1, if_pos hm1]
      dsimp only
      rw [← h2]
      refine eraseLine_congr ?_ 1
      refine foldClear_congr ?_ _ h
      intro a2 b2 x hab
      exact clearRow_congr hab _
    · rw [if_neg hm1, if_neg hm1]
      by_cases hm2 : m = 2
      · rw [if_pos hm2, if_pos hm2]
        dsimp only
        rw [← h3]
        simp only [Option.map_some', Option.some.injEq]
        refine setCursorPosition_congr ?_ 1 1
        refine foldClear_congr ?_ _ h
        intro a2 b2 x hab
        exact clearRow_congr hab _
      · rw [if_neg hm2, if_neg hm2]
        simp only [Option.map_some', Option.some.injEq]
        exact h

theorem runCSICommand_congr {s t : TermState} (h : proj s = proj t) (command : Char)
    (params : List Nat) :
    (runCSICommand s command params).map proj = (runCSICommand t command params).map proj := by
  obtain ⟨h1, h2, h3, h4, h5, h6, h7, h8, h9⟩ := proj_fields h
  rw [runCSICommand, runCSICommand]
  by_cases hA : command = 'A'
  · rw [if_pos hA, if_pos hA]
    simp only [Option.map_some', Option.some.injEq]
    exact cursorUp_congr h _
  · rw [if_neg hA, if_neg hA]
    by_cases hB : command = 'B'
    · rw [if_pos hB, if_pos hB]
      simp only [Option.map_some', Option.some.injEq]
      exact cursorDown_congr h _
    · rw [if_neg hB, if_neg hB]
      by_cases hC : command = 'C'
      · rw [if_pos hC, if_pos hC]
        simp only [Option.map_some', Option.some.injEq]
        exact cursorRight_congr h _
      · rw [if_neg hC, if_neg hC]
        by_cases hD : command = 'D'
        · rw [if_pos hD, if_pos hD]
          simp only [Option.map_some', Option.some.injEq]
          exact cursorLeft_congr h _
        · rw [if_neg hD, if_neg hD]
          by_cases hH : command = 'H'
          · rw [if_pos hH, if_pos hH]
            simp only [Option.map_some', Option.some.injEq]
            exact setCursorPosition_congr h _ _
          · rw [if_neg hH, if_neg hH]
            by_cases hJ : command = 'J'
            · rw [if_pos hJ, if_pos hJ]
              exact eraseDisplay_congr h _
            · rw [if_neg hJ, if_neg hJ]
              by_cases hK : command = 'K'
              · rw [if_pos hK, if_pos hK]
                exact eraseLine_congr h _
              · rw [if_neg hK, if_neg hK]
                by_cases hm : command = 'm'
                · rw [if_pos hm, if_pos hm]
                  simp only [Option.map_some', Option.some.injEq]
                  rw [proj_sgr, proj_sgr]
                  exact h
                · rw [if_neg hm, if_neg hm]
                  by_cases hrr : command = 'r'
                  · rw [if_pos hrr, if_pos hrr]
                    simp only [Option.map_some', Option.some.injEq]
                    rw [← h3]
                    exact setScrollRegion_congr h _ _
                  · rw [if_neg hrr, if_neg hrr]
                    by_cases hs2 : command = 's'
                    · rw [if_pos hs2, if_pos hs2]
                      simp only [Option.map_some', Option.some.injEq]
                      exact saveCursor_congr h
                    · rw [if_neg hs2, if_neg hs2]
                      by_cases hu : command = 'u'
                      · rw [if_pos hu, if_pos hu]
                        simp only [Option.map_some', Option.some.injEq]
                        exact restoreCursor_congr h
                      · rw [if_neg hu, if_neg hu]
                        by_cases hl : command = 'l'
                        · rw [if_pos hl, if_pos hl]
                          simp only [Option.map_some', Option.some.injEq]
                          rw [proj_setMode, proj_setMode]
                          exact h
                        · rw [if_neg hl, if_neg hl]
                          by_cases hh : command = 'h'
                          · rw [if_pos hh, if_pos hh]
                            simp only [Option.map_some', Option.some.injEq]
                            rw [proj_setMode, proj_setMode]
                            exact h
                          · rw [if_neg hh, if_neg hh]
                            simp only [Option.map_some', Option.some.injEq]
                            exact h

theorem runSimpleEscape_congr {s t : TermState} (h : proj s = proj t) (c : Char) :
    proj (runSimpleEscape s c) = proj (runSimpleEscape t c) := by
  rw [runSimpleEscape, runSimpleEscape]
  split
  · exact reverseIndex_congr h
  · split
    · exact index_congr h
    · split
      · exact nextLine_congr h
      · split
        · exact saveCursor_congr h
        · split
          · exact restoreCursor_congr h
          · exact h

theorem processCSISequence_congr {s t : TermState} (h : proj s = proj t)
    (text : List Char) (j : Nat) :
    (processCSISequence s text j).1.map proj = (processCSISequence t text j).1.map proj ∧
      (processCSISequence s text j).2 = (processCSISequence t text j).2 := by
  rw [processCSISequence, processCSISequence]
  cases hq : text.get? (csiSpanEnd text j) with
  | none =>
      refine ⟨?_, rfl⟩
      simp only [Option.map_some', Option.some.injEq]
      exact h
  | some command => exact ⟨runCSICommand_congr h command _, rfl⟩

theorem processEscapeSequence_congr {s t : TermState} (h : proj s = proj t)
    (text : List Char) (j : Nat) :
    (processEscapeSequence s text j).1.map proj = (processEscapeSequence t text j).1.map proj ∧
      (processEscapeSequence s text j).2 = (processEscapeSequence t text j).2 := by
  rw [processEscapeSequence, processEscapeSequence]
  cases hq : text.get? (j + 1) with
  | none =>
      refine ⟨?_, rfl⟩
      simp only [Option.map_some', Option.some.injEq]
      exact h
  | some nextChar =>
      dsimp only
      by_cases hb : nextChar = '['
      · rw [if_pos hb, if_pos hb]
        exact processCSISequence_congr h text (j + 1 + 1)
      · rw [if_neg hb, if_neg hb]
        by_cases ho : nextChar = ']'
        · rw [if_pos ho, if_pos ho]
          refine ⟨?_, rfl⟩
          simp only [Option.map_some', Option.some.injEq]
          exact h
        · rw [if_neg ho, if_neg ho]
          by_cases hp : nextChar = '('
          · rw [if_pos hp, if_pos hp]
            refine ⟨?_, rfl⟩
            simp only [Option.map_some', Option.some.injEq]
            exact h
          · rw [if_neg hp, if_neg hp]
            refine ⟨?_, rfl⟩
            simp only [Option.map_some', Option.some.injEq]
            exact runSimpleEscape_congr h nextChar

theorem processOutputGo_congr {text : List Char} :
    ∀ (fuel : Nat) {s t : TermState} {i : Nat}, proj s = proj t →
      (processOutputGo s text i fuel).map proj = (processOutputGo t text i fuel).map proj := by
  intro fuel
  induction fuel with
  | zero =>
      intro s t i h
      rw [processOutputGo, processOutputGo]
      simp only [Option.map_some', Option.some.injEq]
      exact h
  | succ g ih =>
      intro s t i h
      rw [processOutputGo, processOutputGo]
      cases hget : text.get? i with
      | none =>
          simp only [Option.map_some', Option.some.injEq]
          exact h
      | some c =>
          dsimp only
          by_cases h1c : c = escCh
          · rw [if_pos h1c, if_pos h1c]
            have hesc := processEscapeSequence_congr h text i
            cases hseq1 : processEscapeSequence s text i with
            | mk os j =>
                cases hseq2 : processEscapeSequence t text i with
                | mk ot j2 =>
                    rw [hseq1, hseq2] at hesc
                    simp only [] at hesc
                    obtain ⟨hesc1, hesc2⟩ := hesc
                    subst hesc2
                    cases os with
                    | none =>
                        cases ot with
                        | none => rfl
                        | some t1 => simp at hesc1
                    | some s1 =>
                        cases ot with
                        | none => simp at hesc1
                        | some t1 =>
                            simp only [Option.map_some', Option.some.injEq] at hesc1
                            exact ih hesc1
          · rw [if_neg h1c, if_neg h1c]
            by_cases h2c : c = '\r'
            · rw [if_pos h2c, if_pos h2c]
              exact ih (crState_congr h)
            · rw [if_neg h2c, if_neg h2c]
              by_cases h3c : c = '\n'
              · rw [if_pos h3c, if_pos h3c]
                exact ih (lineFeed_congr h)
              · rw [if_neg h3c, if_neg h3c]
                by_cases h4c : c = '\t'
                · rw [if_pos h4c, if_pos h4c]
                  exact ih (tab_congr h)
                · rw [if_neg h4c, if_neg h4c]
                  by_cases h5c : c = bsCh
                  · rw [if_pos h5c, if_pos h5c]
                    exact ih (backspace_congr h)
                  · rw [if_neg h5c, if_neg h5c]
                    by_cases h6c : 32 ≤ c.toNat
                    · rw [if_pos h6c, if_pos h6c]
                      have hins := insertCharacter_congr h c
                      cases hq1 : insertCharacter s c with
                      | none =>
                          rw [hq1] at hins
                          cases hq2 : insertCharacter t c with
                          | none => rfl
                          | some t1 =>
                              rw [hq2] at hins
                              simp at hins
                      | some s1 =>
                          rw [hq1] at hins
                          cases hq2 : insertCharacter t c with
                          | none =>
                              rw [hq2] at hins
                              simp at hins
                          | some t1 =>
                              rw [hq2] at hins
                              simp only [Option.map_some', Option.some.injEq] at hins
                              exact ih hins
                    · rw [if_neg h6c, if_neg h6c]
                      exact ih h

theorem processOutput_congr {s t : TermState} (h : proj s = proj t) (data : List Char) :
    (processOutput s data).map proj = (processOutput t data).map proj :=
  processOutputGo_congr _ h

theorem write_congr {s t : TermState} (h : proj s = proj t) (data : List Char) :
    (write s data).map proj = (write t data).map proj := by
  rw [write, write]
  have hlog : ∀ u : TermState,
      proj (if enableReplayCfg && !u.isReplaying then addToReplayLog u ("output") data else u)
        = proj u := by
    intro u
    split
    · rw [proj_addToReplayLog]
    · rfl
  refine (processOutput_congr ?_ data)
  rw [hlog, hlog]
  exact h

theorem write_frame {s s' : TermState} {data : List Char}
    (h : write s data = some s') :
    s'.rows = s.rows ∧ s'.cols = s.cols ∧ s'.wraparound = s.wraparound ∧
      s'.isReplaying = s.isReplaying ∧ s'.replayIndex = s.replayIndex ∧
      s'.replayData = s.replayData := by
  rw [write] at h
  split at h
  · obtain ⟨h1, h2, h3, _, h5, h6, h7⟩ := processOutput_frame h
    exact ⟨h1, h2, h3, h5, h6, h7⟩
  · obtain ⟨h1, h2, h3, _, h5, h6, h7⟩ := processOutput_frame h
    exact ⟨h1, h2, h3, h5, h6, h7⟩

theorem runWrites_frame : ∀ {ws : List (List Char)} {s s' : TermState},
    runWrites s ws = some s' →
    s'.rows = s.rows ∧ s'.cols = s.cols ∧ s'.wraparound = s.wraparound ∧
      s'.isReplaying = s.isReplaying := by
  intro ws
  induction ws with
  | nil =>
      intro s s' hstep
      rw [runWrites] at hstep
      simp only [List.foldlM_nil, Option.pure_def, Option.some.injEq] at hstep
      rw [← hstep]
      exact ⟨rfl, rfl, rfl, rfl⟩
  | cons w rest ih =>
      intro s s' hstep
      rw [runWrites] at hstep
      simp only [List.foldlM_cons] at hstep
      cases h1 : write s w with
      | none => rw [h1] at hstep; cases hstep
      | some s1 =>
          rw [h1] at hstep
          simp only [Option.bind_eq_bind, Option.some_bind] at hstep
          obtain ⟨f1, f2, f3, f4, _, _⟩ := write_frame h1
          obtain ⟨g1, g2, g3, g4⟩ := ih hstep
          exact ⟨g1.trans f1, g2.trans f2, g3.trans f3, g4.trans f4⟩

theorem sessionLog_write {s s' : TermState} {data : List Char}
    (hrep : s.isReplaying = false) (hcap : s.sessionLog.length + 1 ≤ maxReplaySize)
    (hstep : write s data = some s') :
    s'.sessionLog = s.sessionLog ++ [{ entryType := ("output"), data := data }] := by
  rw [write] at hstep
  rw [if_pos (by simp [enableReplayCfg, hrep])] at hstep
  obtain ⟨_, _, _, hlog, _, _, _⟩ := processOutput_frame hstep
  rw [hlog, addToReplayLog]
  dsimp only
  rw [if_neg (by simp only [List.length_append, List.length_cons, List.length_nil]; omega)]

theorem sessionLog_runWrites : ∀ {ws : List (List Char)} {s s' : TermState},
    s.isReplaying = false → s.sessionLog.length + ws.length ≤ maxReplaySize →
    runWrites s ws = some s' →
    s'.sessionLog = s.sessionLog ++ ws.map (fun w => { entryType := ("output"), data := w }) := by
  intro ws
  induction ws with
  | nil =>
      intro s s' _ _ hstep
      rw [runWrites] at hstep
      simp only [List.foldlM_nil, Option.pure_def, Option.some.injEq] at hstep
      rw [← hstep]
      simp
  | cons w rest ih =>
      intro s s' hrep hcap hstep
      rw [runWrites] at hstep
      simp only [List.foldlM_cons] at hstep
      cases h1 : write s w with
      | none => rw [h1] at hstep; cases hstep
      | some s1 =>
          rw [h1] at hstep
          simp only [Option.bind_eq_bind, Option.some_bind] at hstep
          have hlog1 : s1.sessionLog =
              s.sessionLog ++ [{ entryType := ("output"), data := w }] :=
            sessionLog_write hrep (by simp only [List.length_cons] at hcap; omega) h1
          have hrep1 : s1.isReplaying = false := by
            obtain ⟨_, _, _, h4, _, _⟩ := write_frame h1
            rw [h4, hrep]
          have hcap1 : s1.sessionLog.length + rest.length ≤ maxReplaySize := by
            rw [hlog1]
            simp only [List.length_append, List.length_cons, List.length_nil,
              List.length_cons] at hcap ⊢
            omega
          rw [ih hrep1 hcap1 hstep, hlog1]
          simp [List.append_assoc]

theorem runWrites_congr : ∀ {ws : List (List Char)} {s t : TermState}, proj s = proj t →
    (runWrites s ws).map proj = (runWrites t ws).map proj := by
  intro ws
  induction ws with
  | nil =>
      intro s t h
      rw [runWrites, runWrites]
      simp only [List.foldlM_nil, Option.pure_def, Option.map_some', Option.some.injEq]
      exact h
  | cons w rest ih =>
      intro s t h
      rw [runWrites, runWrites]
      simp only [List.foldlM_cons]
      have hw := write_congr h w
      cases h1 : write s w with
      | none =>
          cases h2 : write t w with
          | none => rfl
          | some t1 => rw [h1, h2] at hw; simp at hw
      | some s1 =>
          cases h2 : write t w with
          | none => rw [h1, h2] at hw; simp at hw
          | some t1 =>
              rw [h1, h2] at hw
              simp only [Option.map_some', Option.some.injEq] at hw
              simp only [Option.bind_eq_bind, Option.some_bind]
              exact ih hw

theorem write_replaying {s : TermState} (h : s.isReplaying = true) (d : List Char) :
    write s d = processOutput s d := by
  rw [write]
  rw [if_neg (by simp [h])]

theorem proj_bump_replayIndex (s : TermState) (n : Nat) :
    proj { s with replayIndex := n } = proj s := rfl

theorem replayRunGo_sim : ∀ (post pre : List (List Char)) (r : TermState),
    r.isReplaying = true →
    r.replayData = (pre ++ post).map (fun w => { entryType := ("output"), data := w }) →
    r.replayIndex = pre.length →
    (replayRunGo r (post.length + 1)).map proj = (runWrites r post).map proj := by
  intro post
  induction post with
  | nil =>
      intro pre r h1 h2 h3
      have hlen : r.replayData.length = pre.length := by
        rw [h2]; simp
      simp only [List.length_nil, Nat.zero_add]
      rw [replayRunGo, stepReplay]
      rw [if_neg (by rw [h3, hlen]; exact fun hc => absurd hc.2 (lt_irrefl _))]
      rw [runWrites]
      simp only [List.foldlM_nil, Option.pure_def]
  | cons w rest ih =>
      intro pre r h1 h2 h3
      have hlen : r.replayData.length = pre.length + (rest.length + 1) := by
        rw [h2]; simp
      have hget : r.replayData.get? r.replayIndex =
          some { entryType := ("output"), data := w } := by
        rw [h2, h3, List.get?_map, List.get?_append_right (le_refl pre.length)]
        simp
      simp only [List.length_cons]
      rw [replayRunGo, stepReplay]
      rw [if_pos ⟨h1, by rw [h3, hlen]; omega⟩]
      rw [hget]
      dsimp only
      rw [if_pos rfl, write_replaying h1 w]
      rw [runWrites]
      simp only [List.foldlM_cons]
      rw [show write r w = processOutput r w from write_replaying h1 w]
      cases hq : processOutput r w with
      | none => rfl
      | some s1 =>
          dsimp only
          obtain ⟨hfrows, hfcols, hfwrap, hflog, hfrep, hfidx, hfdata⟩ :=
            processOutput_frame hq
          have hbool : decide (s1.replayIndex + 1 < s1.replayData.length) =
              decide (0 < rest.length) := by
            rw [hfidx, h3, hfdata, hlen]
            exact decide_eq_decide.mpr (by omega)
          rw [hbool]
          simp only [Option.bind_eq_bind, Option.some_bind]
          by_cases h0 : rest.length = 0
          · have hnil : rest = [] := List.length_eq_zero.mp h0
            subst hnil
            rw [show decide (0 < List.length ([] : List (List Char))) = false from rfl]
            simp only [List.foldlM_nil, Option.pure_def, Option.map_some']
            rfl
          · rw [show decide (0 < rest.length) = true from
              decide_eq_true (Nat.pos_of_ne_zero h0)]
            have hih := ih (pre ++ [w]) { s1 with replayIndex := s1.replayIndex + 1 }
              (by dsimp only; rw [hfrep, h1])
              (by dsimp only
                  rw [hfdata, h2, show pre ++ w :: rest = (pre ++ [w]) ++ rest from by simp])
              (by dsimp only; rw [hfidx, h3]; simp)
            rw [hih]
            exact runWrites_congr (proj_bump_replayIndex s1 (s1.replayIndex + 1))

theorem replayToEnd_sim {r : TermState} (ws : List (List Char))
    (h1 : r.isReplaying = true)
    (h2 : r.replayData = ws.map (fun w => { entryType := ("output"), data := w }))
    (h3 : r.replayIndex = 0) :
    (replayToEnd r).map proj = (runWrites r ws).map proj := by
  rw [replayToEnd]
  have hl : r.replayData.length = ws.length := by rw [h2]; simp
  rw [hl]
  exact replayRunGo_sim ws [] r h1 (by rw [List.nil_append]; exact h2) h3

theorem rowChars_congr {s t : TermState} (h : proj s = proj t) (row c0 c1 : Nat) :
    rowChars s row c0 c1 = rowChars t row c0 c1 := by
  have hch : charMatrix s.screen = charMatrix t.screen := congrArg Core.chars h
  have key : ∀ (u : TermState) (col : Nat),
      (u.screen.get? row).bind (fun r => (r.get? col).map Cell.char)
        = ((charMatrix u.screen).get? row).bind (fun rc => rc.get? col) := by
    intro u col
    rw [charMatrix_get?]
    cases hq : u.screen.get? row with
    | none => rfl
    | some r =>
        simp only [Option.map_some', Option.some_bind]
        rw [List.get?_map]
  rw [rowChars, rowChars]
  by_cases hc : c0 ≤ c1
  · rw [if_pos hc, if_pos hc]
    have hfun : (fun col => (s.screen.get? row).bind (fun r => (r.get? col).map Cell.char))
        = (fun col => (t.screen.get? row).bind (fun r => (r.get? col).map Cell.char)) := by
      funext col
      rw [key s col, key t col, hch]
    rw [hfun]
  · rw [if_neg hc, if_neg hc]

theorem getScreenText_congr {s t : TermState} (h : proj s = proj t) :
    getScreenText s = getScreenText t := by
  have hrows : s.rows = t.rows := congrArg Core.rows h
  have hcols : s.cols = t.cols := congrArg Core.cols h
  rw [getScreenText, getScreenText, hrows, hcols]
  simp only [rowChars_congr h]

theorem proj_startReplay_initial {sL : TermState}
    (hrows : sL.rows = 24) (hcols : sL.cols = 80) (hwrap : sL.wraparound = true)
    (hst : sL.scrollTop = 0) (hsb : sL.scrollBottom = 23)
    (hsc : sL.savedCursor = none) (hslen : sL.screen.length = 24) :
    proj (initializeScreen
      { sL with isReplaying := true, replayIndex := 0, replayData := sL.sessionLog,
                cursorX := 0, cursorY := 0 }) = proj initialState := by
  rw [initializeScreen]
  refine proj_intro rfl rfl ?_ ?_ ?_ ?_ ?_ ?_ ?_
  · exact hrows
  · exact hcols
  · exact hst
  · exact hsb
  · exact hwrap
  · show sL.savedCursor.map _ = _
    rw [hsc]
    rfl
  · show charMatrix (List.replicate sL.rows (blankRow sL.cols sL.attributes) ++
      sL.screen.drop sL.rows) = _
    rw [hrows, hcols, charMatrix_append, charMatrix_replicate, map_char_blankRow]
    rw [List.drop_eq_nil_of_le (by rw [hslen])]
    rw [show initialState.screen = List.replicate 24 (blankRow 80 defaultAttributes) from rfl]
    rw [charMatrix_replicate, map_char_blankRow, show charMatrix [] = [] from rfl]
    simp

set_option maxRecDepth 1000000

set_option maxHeartbeats 2000000

/-- The state after one ordinary write, used to instantiate the claim
theorems at a concrete reachable state. -/
def c1State : TermState :=
  (runOps initialState [TermOp.write [('A' : Char)]]).get (by decide)

/-- C1: corrected cursor bounds.  The claimed invariant `0 ≤ cursorX < cols ∧
0 ≤ cursorY < rows` does not hold (`insertCharacter` leaves the cursor one
past the last column, see the counterexample); what every sequence of valid
operations preserves is `0 ≤ cursorX`, and, as long as no cursor was ever
saved, `cursorX ≤ cols` together with the row bounds whenever the scroll
region spans the whole screen. -/
theorem claim1_cursor_bounds (ops : List TermOp) {s' : TermState}
    (hv : ∀ op ∈ ops, ValidOp op) (hrun : runOps initialState ops = some s') :
    0 ≤ s'.cursorX ∧
      (s'.savedCursor = none → s'.cursorX ≤ (s'.cols : Int) ∧
        (s'.scrollTop = 0 → 0 ≤ s'.cursorY) ∧
        (s'.scrollTop = 0 ∧ s'.scrollBottom + 1 = s'.rows →
          s'.cursorY + 1 ≤ (s'.rows : Int))) := by
  obtain ⟨_, hx, _, hcf⟩ := inv_runOps inv_initialState hv hrun
  refine ⟨hx, fun hn => ?_⟩
  obtain ⟨h1, _, h3, h4⟩ := hcf hn
  exact ⟨h1, h3, h4⟩

/-- C1 witness: the corrected bounds at the state after writing one byte. -/
theorem claim1_cursor_bounds_witness :
    0 ≤ c1State.cursorX ∧
      (c1State.savedCursor = none → c1State.cursorX ≤ (c1State.cols : Int) ∧
        (c1State.scrollTop = 0 → 0 ≤ c1State.cursorY) ∧
        (c1State.scrollTop = 0 ∧ c1State.scrollBottom + 1 = c1State.rows →
          c1State.cursorY + 1 ≤ (c1State.rows : Int))) :=
  claim1_cursor_bounds [TermOp.write [('A' : Char)]]
    (by intro op hop
        rw [List.mem_singleton] at hop
        subst hop
        exact trivial)
    (by decide)

/-- C1 counterexample: `CSI 1;80 H` then `X` leaves `cursorX = 80 = cols`,
refuting `cursorX < cols`. -/
theorem claim1_counterexample :
    ((write initialState (String.toList ("\x1b[1;80HX"))).all
      (fun s => decide (0 ≤ s.cursorX ∧ s.cursorX < (s.cols : Int) ∧
        0 ≤ s.cursorY ∧ s.cursorY < (s.rows : Int)))) = false := by decide

/-- C2: the crash-proofness claim is false of the code: `CSI 5;10 r` homes the
cursor to row 0 above the new scroll top 4, `ESC M` then decrements `cursorY`
to `-1` (the region check compares against `scrollTop = 4`), and printing `X`
dereferences `screen[-1]`, a JS `TypeError` (`none` in the model). -/
theorem claim2_crash :
    write initialState (String.toList ("\x1b[5;10r" ++ "\x1bM" ++ "X")) = none := by decide

/-- The state after one ordinary write, for the C3 witness. -/
def c3State : TermState :=
  (runOps initialState [TermOp.write [('B' : Char)]]).get (by decide)

/-- C3: corrected scroll-region bounds.  `scrollTop ≤ scrollBottom` and
`scrollTop ≤ rows-1` are not invariant (CSI r clamps only the bottom, see the
counterexample); what holds after every valid operation sequence is
`scrollBottom < rows` with positive dimensions, and `setScrollRegion`
converts its arguments to 0-based with `scrollTop = top-1` (clamped below at
0 by the Nat subtraction, never above) and `scrollBottom` clamped into the
screen. -/
theorem claim3_scroll_bounds (ops : List TermOp) {s' : TermState}
    (hv : ∀ op ∈ ops, ValidOp op) (hrun : runOps initialState ops = some s') :
    (s'.scrollBottom + 1 ≤ s'.rows ∧ 1 ≤ s'.rows ∧ 1 ≤ s'.cols) ∧
      ∀ (s : TermState) (top bottom : Nat),
        (setScrollRegion s top bottom).scrollTop = top - 1 ∧
        (setScrollRegion s top bottom).scrollBottom = min (s.rows - 1) (bottom - 1) := by
  obtain ⟨⟨hr, hc, _, hb⟩, _, _, _⟩ := inv_runOps inv_initialState hv hrun
  exact ⟨⟨hb, hr, hc⟩, fun s top bottom => ⟨rfl, rfl⟩⟩

/-- C3 witness: the corrected bounds at the state after writing one byte. -/
theorem claim3_scroll_bounds_witness :
    (c3State.scrollBottom + 1 ≤ c3State.rows ∧ 1 ≤ c3State.rows ∧ 1 ≤ c3State.cols) ∧
      ∀ (s : TermState) (top bottom : Nat),
        (setScrollRegion s top bottom).scrollTop = top - 1 ∧
        (setScrollRegion s top bottom).scrollBottom = min (s.rows - 1) (bottom - 1) :=
  claim3_scroll_bounds [TermOp.write [('B' : Char)]]
    (by intro op hop
        rw [List.mem_singleton] at hop
        subst hop
        exact trivial)
    (by decide)

/-- C3 counterexample: `CSI 100;1 r` yields `scrollTop = 99`, `scrollBottom =
0`: the top is neither ≤ the bottom nor ≤ rows-1. -/
theorem claim3_counterexample :
    ((write initialState (String.toList ("\x1b[100;1r"))).all
      (fun s => decide (s.scrollTop ≤ s.scrollBottom ∧ s.scrollTop ≤ s.rows - 1))) =
      false := by decide

/-- The state after one ordinary write, for the C4 witness. -/
def c4State : TermState :=
  (runOps initialState [TermOp.write [('C' : Char)]]).get (by decide)

/-- Row 0 of `c4State`. -/
def c4Row : List Cell := c4State.screen.getD 0 []

/-- C4: corrected row widths.  Rows do not all have length exactly `cols`
(erase-line mode 1 at a cursor one past the last column pads the row to
`cols + 1`, see the counterexample); what holds after every valid operation
sequence, as long as no cursor was ever saved, is that every visible row has
length `cols` or `cols + 1`. -/
theorem claim4_row_widths (ops : List TermOp) {s' : TermState}
    (hv : ∀ op ∈ ops, ValidOp op) (hrun : runOps initialState ops = some s')
    (hsaved : s'.savedCursor = none) :
    ∀ i r, i < s'.rows → s'.screen.get? i = some r →
      s'.cols ≤ r.length ∧ r.length ≤ s'.cols + 1 := by
  obtain ⟨_, _, _, hcf⟩ := inv_runOps inv_initialState hv hrun
  exact (hcf hsaved).2.1

/-- C4 witness: the corrected width bounds at row 0 after writing one byte. -/
theorem claim4_row_widths_witness :
    c4State.cols ≤ c4Row.length ∧ c4Row.length ≤ c4State.cols + 1 :=
  claim4_row_widths [TermOp.write [('C' : Char)]]
    (by intro op hop
        rw [List.mem_singleton] at hop
        subst hop
        exact trivial)
    (by decide) (by decide) 0 c4Row (by decide) (by decide)

/-- C4 counterexample: writing `X` at column 80 and erasing line mode 1
extends row 0 to 81 cells while `cols = 80`. -/
theorem claim4_counterexample :
    ((write initialState (String.toList ("\x1b[1;80HX" ++ "\x1b[1K"))).all
      (fun s => decide (∀ r ∈ s.screen, r.length = s.cols))) = false := by decide

/-- C5: corrected replay fidelity.  As claimed it is false: `startReplay`
resets only the screen and the cursor, so a live run that narrowed the
scroll region (or saved a cursor) replays against different scrolling state
and produces a different final screen (see the counterexample).  Fidelity
does hold whenever the live run ends with the constructor's scroll region,
no saved cursor, and the 24-row screen intact: replaying the recorded
session log to completion reproduces `getScreenText` exactly. -/
theorem claim5_replay_fidelity (ws : List (List Char)) {sL : TermState}
    (hlive : runWrites initialState ws = some sL)
    (hcap : ws.length ≤ maxReplaySize)
    (hst : sL.scrollTop = 0) (hsb : sL.scrollBottom = 23)
    (hsc : sL.savedCursor = none) (hslen : sL.screen.length = 24) :
    ∃ t0 rF, startReplay sL sL.sessionLog = some t0 ∧ replayToEnd t0 = some rF ∧
      getScreenText rF = getScreenText sL := by
  obtain ⟨hrows, hcols, hwrap, hrep⟩ := runWrites_frame hlive
  have hlog : sL.sessionLog = ws.map (fun w => { entryType := ("output"), data := w }) := by
    have h0 := sessionLog_runWrites (s := initialState) rfl
      (by exact (by simpa using hcap : 0 + ws.length ≤ maxReplaySize)) hlive
    rw [h0, show initialState.sessionLog = [] from rfl, List.nil_append]
  have hstart : startReplay sL sL.sessionLog = some (initializeScreen
      { sL with isReplaying := true, replayIndex := 0, replayData := sL.sessionLog,
                cursorX := 0, cursorY := 0 }) := by
    rw [startReplay, if_pos (by decide)]
  have hproj0 : proj (initializeScreen
      { sL with isReplaying := true, replayIndex := 0, replayData := sL.sessionLog,
                cursorX := 0, cursorY := 0 }) = proj initialState :=
    proj_startReplay_initial (by exact hrows) (by exact hcols) (by exact hwrap)
      hst hsb hsc hslen
  have hchain : (replayToEnd (initializeScreen
      { sL with isReplaying := true, replayIndex := 0, replayData := sL.sessionLog,
                cursorX := 0, cursorY := 0 })).map proj = some (proj sL) := by
    rw [replayToEnd_sim (r := initializeScreen
        { sL with isReplaying := true, replayIndex := 0, replayData := sL.sessionLog,
                  cursorX := 0, cursorY := 0 }) ws rfl (by exact hlog) rfl,
      runWrites_congr hproj0, hlive]
    rfl
  cases hre : replayToEnd (initializeScreen
      { sL with isReplaying := true, replayIndex := 0, replayData := sL.sessionLog,
                cursorX := 0, cursorY := 0 }) with
  | none => rw [hre] at hchain; simp at hchain
  | some rF =>
      rw [hre] at hchain
      simp only [Option.map_some', Option.some.injEq] at hchain
      exact ⟨_, rF, hstart, hre, getScreenText_congr hchain⟩

/-- The state after one recorded write, for the C5 witness. -/
def c5State : TermState :=
  (runWrites initialState [[('A' : Char)]]).get (by decide)

/-- C5 witness: replaying a one-write session reproduces the screen text. -/
theorem claim5_replay_fidelity_witness :
    ∃ t0 rF, startReplay c5State c5State.sessionLog = some t0 ∧
      replayToEnd t0 = some rF ∧ getScreenText rF = getScreenText c5State :=
  claim5_replay_fidelity [[('A' : Char)]] (by decide) (by decide) (by decide)
    (by decide) (by decide) (by decide)

/-- C5 counterexample: the live run writes `A`, newline, `B`, then shrinks
the scroll region to the single top row; the replay then scrolls where the
live run did not, and the final screen texts differ. -/
theorem claim5_counterexample :
    ((runWrites initialState
        [String.toList ("A" ++ "\n" ++ "B"), String.toList ("\x1b[1;1r")]).bind
      (fun sL => ((startReplay sL sL.sessionLog).bind replayToEnd).map (fun rF =>
        decide (getScreenText rF = getScreenText sL)))) = some false := by decide

/-- C6: corrected scrollback capacity.  The `≤ maxScrollback` bound and the
batch trim do hold for the `scrollUp` path, i.e. for every sequence of
`write` calls; but `resize` appends the retired rows with no trim at all, so
the bound is not an invariant of resize sequences (see the counterexample). -/
theorem claim6_scrollback (ws : List (List Char)) {s' : TermState}
    (hrun : runWrites initialState ws = some s') :
    s'.scrollback.length ≤ maxScrollback ∧
      ∀ s : TermState, s.scrollback.length = maxScrollback →
        (scrollUp s).scrollback.length = maxScrollback / 2 ∧
        ∃ dropped, s.scrollback ++ [s.screen.getD s.scrollTop []] =
          dropped ++ (scrollUp s).scrollback := by
  constructor
  · exact sb_runWrites (Nat.zero_le _) hrun
  · intro s hcap
    have hlen : (s.scrollback ++ [s.screen.getD s.scrollTop []]).length > maxScrollback := by
      simp only [List.length_append, List.length_cons, List.length_nil, hcap]
      omega
    rw [scrollUp]
    dsimp only
    rw [if_pos hlen]
    refine ⟨?_, ⟨_, (List.take_append_drop _ _).symm⟩⟩
    rw [List.length_drop]
    simp only [List.length_append, List.length_cons, List.length_nil, hcap, maxScrollback]

/-- The state after one line feed, for the C6 witness. -/
def c6State : TermState :=
  (runWrites initialState [[Char.ofNat 10]]).get (by decide)

/-- C6 witness: the capacity bound and the trim characterisation after one
line feed. -/
theorem claim6_scrollback_witness :
    c6State.scrollback.length ≤ maxScrollback ∧
      ∀ s : TermState, s.scrollback.length = maxScrollback →
        (scrollUp s).scrollback.length = maxScrollback / 2 ∧
        ∃ dropped, s.scrollback ++ [s.screen.getD s.scrollTop []] =
          dropped ++ (scrollUp s).scrollback :=
  claim6_scrollback [[Char.ofNat 10]] (by decide)

theorem c6_resize_screen_shape :
    (resize initialState 10002 1).screen =
      jsMapIdx (fun i r => if i < min 10002 initialState.rows
          then resizeRow r initialState.cols 1 initialState.attributes else r)
        (initialState.screen.take initialState.rows ++
          List.replicate (10002 - initialState.rows) (blankRow 1 initialState.attributes) ++
          initialState.screen.drop 10002) := by
  rw [resize]
  dsimp only
  rw [if_pos (show initialState.rows < 10002 by decide)]

theorem c6_resize_screen_simple :
    (resize initialState 10002 1).screen =
      jsMapIdx (fun i r => if i < 24 then resizeRow r 80 1 defaultAttributes else r)
        (List.replicate 24 (blankRow 80 defaultAttributes) ++
          List.replicate 9978 (blankRow 1 defaultAttributes)) := by
  rw [c6_resize_screen_shape]
  rw [show initialState.rows = 24 from rfl, show initialState.cols = 80 from rfl,
    show initialState.attributes = defaultAttributes from rfl,
    show initialState.screen = List.replicate 24 (blankRow 80 defaultAttributes) from rfl]
  rw [List.take_replicate, List.drop_eq_nil_of_le (by rw [List.length_replicate]; norm_num),
    List.append_nil]
  simp only [show min 24 24 = 24 from rfl, show min 10002 24 = 24 from by norm_num,
    show (10002 : Nat) - 24 = 9978 from by norm_num]

theorem c6_resize_screen_length :
    (resize initialState 10002 1).screen.length = 10002 := by
  rw [c6_resize_screen_simple, jsMapIdx_length]
  rw [List.length_append, List.length_replicate, List.length_replicate]

theorem c6_resize_row_lengths :
    ∀ i r, (resize initialState 10002 1).screen.get? i = some r → r.length = 1 := by
  intro i r hget
  rw [c6_resize_screen_simple, get?_jsMapIdx] at hget
  by_cases hi : i < 24
  · rw [List.get?_append (by rw [List.length_replicate]; omega)] at hget
    rw [List.get?_eq_getElem?, List.getElem?_replicate, if_pos hi] at hget
    simp only [Option.map_some', Option.some.injEq] at hget
    rw [if_pos hi] at hget
    rw [← hget, resizeRow]
    rw [if_neg (by norm_num), if_pos (by norm_num)]
    rw [List.length_take, blankRow, List.length_replicate]
    norm_num
  · rw [List.get?_append_right (by rw [List.length_replicate]; omega)] at hget
    rw [List.length_replicate] at hget
    rw [List.get?_eq_getElem?, List.getElem?_replicate] at hget
    by_cases hi2 : i - 24 < 9978
    · rw [if_pos hi2] at hget
      simp only [Option.map_some', Option.some.injEq] at hget
      rw [if_neg hi] at hget
      rw [← hget, blankRow, List.length_replicate]
    · rw [if_neg hi2] at hget
      simp at hget

/-- C6 counterexample: growing to 10002 rows and shrinking back to 1 retires
10001 rows into scrollback in one `resize`, with no trim: the capacity bound
fails under resizes. -/
theorem claim6_counterexample :
    runOps initialState [TermOp.resize 10002 1, TermOp.resize 1 1] =
      some (resize (resize initialState 10002 1) 1 1) ∧
    (∀ op ∈ [TermOp.resize 10002 1, TermOp.resize 1 1], ValidOp op) ∧
    maxScrollback < (resize (resize initialState 10002 1) 1 1).scrollback.length := by
  refine ⟨by rw [runOps]; simp only [List.foldlM_cons, List.foldlM_nil, applyOp,
      Option.bind_eq_bind, Option.some_bind, Option.pure_def], ?_, ?_⟩
  · intro op hop
    simp only [List.mem_cons, List.mem_singleton] at hop
    rcases hop with rfl | rfl | hop
    · exact ⟨by norm_num, by norm_num⟩
    · exact ⟨by norm_num, by norm_num⟩
    · cases hop
  · have hsb4 : (resize (resize initialState 10002 1) 1 1).scrollback =
        (resize initialState 10002 1).scrollback ++
          (((resize initialState 10002 1).screen.drop 1).take
            ((resize initialState 10002 1).rows - 1)).filter (fun r => ¬ r.isEmpty) := by
      rw [resize]
      dsimp only
      rw [if_pos (show 1 < (resize initialState 10002 1).rows from by
        rw [show (resize initialState 10002 1).rows = 10002 from rfl]; norm_num)]
    have hsbA : (resize initialState 10002 1).scrollback = [] := by decide
    rw [hsb4, hsbA, List.nil_append,
      show (resize initialState 10002 1).rows = 10002 from rfl]
    have hfil : (((resize initialState 10002 1).screen.drop 1).take (10002 - 1)).filter
        (fun r => ¬ r.isEmpty) =
        ((resize initialState 10002 1).screen.drop 1).take (10002 - 1) := by
      rw [List.filter_eq_self]
      intro r hr
      have hr1 : r ∈ (resize initialState 10002 1).screen :=
        List.mem_of_mem_drop (List.mem_of_mem_take hr)
      obtain ⟨i, hi⟩ := List.mem_iff_get?.mp hr1
      have hl1 := c6_resize_row_lengths i r hi
      cases r with
      | nil => simp at hl1
      | cons a as => simp
    rw [hfil, List.length_take, List.length_drop, c6_resize_screen_length, maxScrollback]
    omega

/-- C7: parser progress and termination, confirmed.  The escape-sequence
step always returns an index strictly past the escape byte (an incomplete
sequence yields an index past the end, stopping the loop); the CSI
sub-parser either consumes to end-of-input or past its start; the OSC scan
never moves backwards; and the fuel `text.length + 1` that `processOutput`
grants its dispatch loop is always sufficient: any fuel of at least
`text.length` computes the same result, so the processing of every finite
write terminates with the fuel-exhaustion branch unreachable. -/
theorem claim7_parser_progress :
    (∀ (s : TermState) (text : List Char) (i : Nat),
        i < (processEscapeSequence s text i).2) ∧
    (∀ (s : TermState) (text : List Char) (j : Nat),
        (processCSISequence s text j).2 = text.length ∨
          j + 1 ≤ (processCSISequence s text j).2) ∧
    (∀ (text : List Char) (j : Nat), j ≤ processOSCSequence text j) ∧
    (∀ (s : TermState) (text : List Char) (g : Nat), text.length ≤ g →
        processOutputGo s text 0 g = processOutput s text) :=
  ⟨processEscapeSequence_progress, processCSISequence_progress, processOSCSequence_ge,
    fun s text g hg =>
      processOutputGo_stable text g (text.length + 1) s 0 (by omega) (by omega)⟩

/-- C8: corrected concrete scenario.  Writing 25 line feeds from the fresh
terminal leaves the cursor on row 23, but TWO rows in scrollback, not one:
the first 23 feeds only move the cursor from row 0 to the bottom row 23,
and each of the remaining two feeds scrolls one row out. -/
theorem claim8_scenario :
    (write initialState (List.replicate 25 (Char.ofNat 10))).map
      (fun s => (s.scrollback.length, s.cursorY)) = some (2, (23 : Int)) := by decide

/-- C8 counterexample: the claimed `scrollback.length = 1` is false. -/
theorem claim8_counterexample :
    ((write initialState (List.replicate 25 (Char.ofNat 10))).all
      (fun s => decide (s.scrollback.length = 1))) = false := by decide

/-- The output format the claim asserts for `copySelection`: each selected
row's span with its own trailing whitespace stripped, the rows then joined
by newlines.  Transcribed from the claim's wording, for comparison with the
source's `copySelection`, which instead trims the joined string once at both
ends. -/
def claimedCopySelection (s : TermState) (startRow startCol endRow endCol : Nat) :
    Option String :=
  if enableClipboardCfg then
    let rowsSel := if startRow ≤ endRow then List.range' startRow (endRow + 1 - startRow) else []
    some (String.mk (List.intercalate ['\n'] (rowsSel.map (fun row =>
      let c0 := if row = startRow then startCol else 0
      let c1 := if row = endRow then endCol else s.cols - 1
      jsTrimEnd (rowChars s row c0 c1)))))
  else none

/-- C9: corrected `copySelection` format.  In general the source trims the
whole newline-joined selection once (leading and trailing), not each row
(see the counterexample, where an interior row keeps its padding).  The two
formats agree for a single-row selection whose span carries no leading
whitespace. -/
theorem claim9_copy_selection (s : TermState) (r a b : Nat)
    (h : (rowChars s r a b).dropWhile jsWhitespace = rowChars s r a b) :
    copySelection s r a r b = claimedCopySelection s r a r b := by
  have hone : ∀ (g : Nat → List Char),
      (if r ≤ r then List.range' r (r + 1 - r) else []).map g = [g r] := by
    intro g
    rw [if_pos (le_refl r), show r + 1 - r = 1 from by omega]
    rfl
  have hsingle : ∀ l : List Char, List.intercalate ['\n'] [l] = l := by
    intro l
    simp [List.intercalate]
  rw [copySelection, claimedCopySelection]
  rw [if_pos (show enableClipboardCfg = true from rfl),
    if_pos (show enableClipboardCfg = true from rfl)]
  dsimp only
  rw [hone, hone]
  rw [if_pos (rfl : r = r), if_pos (rfl : r = r)]
  rw [hsingle, hsingle]
  have htrim : jsTrim (rowChars s r a b) = jsTrimEnd (rowChars s r a b) := by
    rw [jsTrim, jsTrimEnd, h]
  rw [htrim]

/-- The state after one ordinary write, for the C9 witness. -/
def c9State : TermState :=
  (write initialState [('A' : Char)]).get (by decide)

/-- C9 witness: the two formats agree on the single-cell selection of the
written `A`. -/
theorem claim9_copy_selection_witness :
    copySelection c9State 0 0 0 0 = claimedCopySelection c9State 0 0 0 0 :=
  claim9_copy_selection c9State 0 0 0 (by decide)

/-- C9 counterexample: selecting both rows after writing `A`, CR LF, `B`
keeps the 79 blank cells padding the first row (the whole-string trim only
reaches the ends), while the claimed per-row strip would not. -/
theorem claim9_counterexample :
    ((write initialState (String.toList ("A" ++ "\x0d" ++ "\n" ++ "B"))).map (fun s =>
      decide (copySelection s 0 0 1 79 = claimedCopySelection s 0 0 1 79))) =
      some false := by decide

/-- The hypothesis of the C9 agreement theorem is doing real work: on a span
with leading exotic ECMAScript whitespace (here U+2000, a storable printable
cell), the source's whole-string trim and the claimed per-row strip disagree
even on a single-row selection. -/
theorem copySelection_exotic_whitespace :
    ((write initialState [Char.ofNat 8192, ('X' : Char)]).map (fun s =>
      (decide (copySelection s 0 0 0 1 = claimedCopySelection s 0 0 0 1),
       (copySelection s 0 0 0 1).map String.toList,
       (claimedCopySelection s 0 0 0 1).map String.toList))) =
    some (false, some [('X' : Char)], some [Char.ofNat 8192, ('X' : Char)]) := by decide

/-- C10: confirmed `startReplay` frame.  It succeeds (the replay feature is
enabled), homes the cursor, keeps the dimensions, the attribute pen, the
scroll region and the saved cursor, and rebuilds every visible row as blank
cells that capture the pre-replay attribute set. -/
theorem claim10_start_replay_frame (s : TermState) (entries : List LogEntry) :
    ∃ t, startReplay s entries = some t ∧
      t.cursorX = 0 ∧ t.cursorY = 0 ∧ t.rows = s.rows ∧ t.cols = s.cols ∧
      t.attributes = s.attributes ∧ t.scrollTop = s.scrollTop ∧
      t.scrollBottom = s.scrollBottom ∧ t.savedCursor = s.savedCursor ∧
      (∀ i, i < s.rows → t.screen.get? i = some (blankRow s.cols s.attributes)) := by
  refine ⟨initializeScreen
    { s with isReplaying := true, replayIndex := 0, replayData := entries,
             cursorX := 0, cursorY := 0 },
    ?_, rfl, rfl, rfl, rfl, rfl, rfl, rfl, rfl, ?_⟩
  · rw [startReplay, if_pos (show enableReplayCfg = true from rfl)]
  · intro i hi
    rw [initializeScreen]
    dsimp only
    rw [List.get?_append (by rw [List.length_replicate]; exact hi)]
    rw [List.get?_eq_getElem?, List.getElem?_replicate, if_pos hi]

end TermCore
